import Mathlib

/-!
Verification development for the hardware-kiosk basket reconciliation engine
(source: pages/api/agent.ts). The server-side logic that runs after the
candidate search and the generative call is shallowly embedded as pure Lean
functions over typed data: the candidate set, the client cart, the product
catalog (for the pinned-SKU backfill point lookups) and the parsed generative
proposal are explicit inputs, and the HTTP/transport layer is out of scope.
JavaScript strings are modelled as Lean strings; the handful of regular
expressions in the source are expanded into explicit substring / word-boundary
scans over the same literal alternatives.  Numeric JSON fields are modelled as
Int (an absent field as Option); untyped-garbage payloads (non-string SKUs,
object-valued quantities) are outside the model.
-/

set_option maxRecDepth 10000

namespace Kiosk

/-! ### Character and string primitives -/

/-- ASCII plus the Spanish accented letters used by the source strings,
mirroring JavaScript toLowerCase on the alphabet that actually occurs. -/
def lowerChar (c : Char) : Char :=
  if 65 ≤ c.toNat && c.toNat ≤ 90 then Char.ofNat (c.toNat + 32)
  else if c = 'Á' then 'á' else if c = 'É' then 'é' else if c = 'Í' then 'í'
  else if c = 'Ó' then 'ó' else if c = 'Ú' then 'ú' else if c = 'Ü' then 'ü'
  else if c = 'Ñ' then 'ñ' else c

def lowerStr (s : String) : String := String.mk (s.data.map lowerChar)

/-- NFD-normalize-and-drop-diacritics on lowercase Spanish letters, mirroring
normalize("NFD").replace(diacritic marks) in the source. -/
def stripDiaChar (c : Char) : Char :=
  if c = 'á' then 'a' else if c = 'é' then 'e' else if c = 'í' then 'i'
  else if c = 'ó' then 'o' else if c = 'ú' then 'u' else if c = 'ü' then 'u'
  else if c = 'ñ' then 'n' else c

/-- toLowerCase().normalize("NFD").replace(diacritics) -/
def normDia (s : String) : String := String.mk ((lowerStr s).data.map stripDiaChar)

def isWs (c : Char) : Bool := c = ' ' || c = '\t' || c = '\n' || c = '\r'

def dropWsLead : List Char → List Char
  | [] => []
  | c :: t => if isWs c then dropWsLead t else c :: t

/-- String.prototype.trim restricted to ASCII whitespace. -/
def trimS (s : String) : String :=
  String.mk ((dropWsLead (dropWsLead s.data.reverse).reverse))

/-- JavaScript regex word character \w = ASCII [A-Za-z0-9_]. -/
def isWordChar (c : Char) : Bool :=
  (97 ≤ c.toNat && c.toNat ≤ 122) || (65 ≤ c.toNat && c.toNat ≤ 90) ||
  (48 ≤ c.toNat && c.toNat ≤ 57) || c = '_'

/-- If needle is a prefix of hay, return the remaining suffix of hay. -/
def restAfter : List Char → List Char → Option (List Char)
  | [], r => some r
  | _ :: _, [] => none
  | a :: as, b :: bs => if a = b then restAfter as bs else none

/-- Does needle match at the current position, honouring an optional left
word boundary (does the previous char end a word?) and right word boundary? -/
def matchAt (lb rb : Bool) (needle : List Char) (prevW : Bool) (hay : List Char) : Bool :=
  if lb && prevW then false
  else match restAfter needle hay with
    | some [] => true
    | some (c :: _) => !(rb && isWordChar c)
    | none => false

/-- Scan hay for an occurrence of needle with the requested boundaries;
prevW says whether the character just before the scan position is a \w char. -/
def occursB (lb rb : Bool) (needle : List Char) : Bool → List Char → Bool
  | prevW, [] => matchAt lb rb needle prevW []
  | prevW, c :: t => matchAt lb rb needle prevW (c :: t) || occursB lb rb needle (isWordChar c) t

/-- regex test of an alternation of literal needles over s with the given
boundary flags (lb: leading word boundary, rb: trailing word boundary). -/
def testB (lb rb : Bool) (needles : List String) (s : String) : Bool :=
  needles.any (fun n => occursB lb rb n.data false s.data)

def hasPrefixL : List Char → List Char → Bool
  | [], _ => true
  | _ :: _, [] => false
  | a :: as, b :: bs => a = b && hasPrefixL as bs

/-- String.prototype.includes on char lists (haystack first). -/
def includesL : List Char → List Char → Bool
  | hay, needle =>
    hasPrefixL needle hay ||
      (match hay with
       | [] => false
       | _ :: t => includesL t needle)

def strIncludes (hay needle : String) : Bool := includesL hay.data needle.data

/-- Case-insensitive regex alternation test without word boundaries: lower the
haystack and look for any of the (already lowercase) needles as substrings. -/
def ciAny (needles : List String) (s : String) : Bool :=
  needles.any (fun n => strIncludes (lowerStr s) n)

/-! ### Intent classifiers (agent.ts lines 72-88) -/

def endPhrases : List String :=
  ["no", "no gracias", "eso es todo", "listo", "estoy bien", "nada mas", "nada más"]

def endIntent (text : String) : Bool :=
  let s := trimS (lowerStr text)
  endPhrases.any (fun p => s == p || s == p ++ ".")

def replaceIntent (text : String) : Bool :=
  testB false true
    ["mejor", "prefiero", "cambial", "cambia", "en lugar de", "en vez de",
     "mejor pon", "mejor usa"]
    (normDia text)

def removeIntent (text : String) : Bool :=
  testB false true ["quita", "remueve", "borra", "elimina", "saca", "sin"] (lowerStr text)

def addIntent (text : String) : Bool :=
  testB true true
    ["si", "agrega", "agregalo", "anade", "ponlo", "sumalo", "dame", "me lo llevo",
     "tambien", "incluyelo", "mete"]
    (normDia text)

/-! ### normalizeQuery (agent.ts lines 37-57) -/

def isDigitC (c : Char) : Bool := 48 ≤ c.toNat && c.toNat ≤ 57

def takeDigits : List Char → List Char × List Char
  | [] => ([], [])
  | c :: t =>
    if isDigitC c then
      let p := takeDigits t
      (c :: p.1, p.2)
    else ([], c :: t)

def skipWs : List Char → List Char
  | [] => []
  | c :: t => if isWs c then skipWs t else c :: t

/-- Try to match the fraction pattern digits-slash-digits (with optional inner
whitespace and a trailing word boundary) at the head of the list; return the
whitespace-compacted fraction on success. -/
def fracHere (l : List Char) : Option String :=
  let p1 := takeDigits l
  if p1.1 = [] then none
  else
    match skipWs p1.2 with
    | '/' :: r3 =>
      let p2 := takeDigits (skipWs r3)
      if p2.1 = [] then none
      else
        match p2.2 with
        | [] => some (String.mk (p1.1 ++ '/' :: p2.1))
        | c :: _ =>
          if isWordChar c then none else some (String.mk (p1.1 ++ '/' :: p2.1))
    | _ => none

/-- Leftmost match of the fraction regex with a leading word boundary. -/
def findFrac : Bool → List Char → Option String
  | _, [] => none
  | prevW, c :: t =>
    match (if prevW then none else fracHere (c :: t)) with
    | some f => some f
    | none => findFrac (isWordChar c) t

def dedupFirstAux (seen : List String) : List String → List String
  | [] => []
  | x :: xs =>
    if seen.contains x then dedupFirstAux seen xs
    else x :: dedupFirstAux (x :: seen) xs

/-- Array.from(new Set(t)): deduplicate keeping first occurrences. -/
def dedupFirst (l : List String) : List String := dedupFirstAux [] l

def joinSp : List String → String
  | [] => ""
  | [x] => x
  | x :: y :: xs => x ++ " " ++ joinSp (y :: xs)

def normalizeQuery (q : String) : String :=
  let s := lowerStr q
  let inc := fun (n : String) => strIncludes s n
  let t :=
    (if inc "pvc" then ["pvc"] else []) ++
    (if inc "cpvc" then ["cpvc"] else []) ++
    (if inc "cobre" then ["cobre"] else []) ++
    (if inc "pex" then ["pex"] else []) ++
    (if inc "tablaroca" || inc "drywall" then ["tablaroca"] else []) ++
    (if inc "madera" then ["madera"] else []) ++
    (match findFrac false s.data with | some f => [f] | none => []) ++
    (if inc "media" then ["1/2"] else []) ++
    (if inc "tres cuartos" then ["3/4"] else []) ++
    (if inc "un cuarto" || inc "cuarto" then ["1/4"] else []) ++
    (if inc "tres octavos" then ["3/8"] else []) ++
    (if inc "cinco octavos" then ["5/8"] else []) ++
    (if inc "una pulgada" || inc "1 pulgada" || inc "1\"" then ["1\""] else []) ++
    (if inc "media pulgada" then ["1/2"] else [])
  let compact := joinSp (dedupFirst t)
  if compact = "" then q else compact

/-! ### Data model -/

/-- A catalog row as selected by the handler's queries. -/
structure Product where
  sku : String
  name : String
  brand : String
  category : String
  subcategory : String
  description : String
  price : Int
  currency : String
  stock : Int
  image_url : String
deriving DecidableEq, Repr

/-- A client-cart entry; qty may be absent in the request payload. -/
structure CartItem where
  sku : String
  qty : Option Int
deriving DecidableEq, Repr

/-- A basket/upsell line of a plan. qty is Option because the untrusted
generative proposal may omit it; every reconciliation write sets it. -/
structure Line where
  sku : String
  name : String
  qty : Option Int
  price : Int
  currency : String
  stock : Int
  image_url : String
  why : String
deriving DecidableEq, Repr

structure Plan where
  title : String
  steps : List String
  basket : List Line
  upsell : List Line
  confirm : String
deriving DecidableEq, Repr

/-- A successfully JSON-parsed generative proposal; a parse failure is
modelled as the proposal being none. Absent string fields are "". -/
structure RawProposal where
  plan : Plan
  reply : String
deriving DecidableEq, Repr

structure AgentOut where
  plan : Plan
  reply : String
deriving DecidableEq, Repr

/-- JavaScript s1 || s2 for strings: "" and absent are falsy. -/
def strOr (a b : String) : String := if a = "" then b else a

/-! ### Insertion-order map (JavaScript Map) as an association list -/

/-- JavaScript Map.prototype.set: update the entry in place if the key is
present (keys are unique in a Map, so updating the first occurrence is
exact), append at the end otherwise. -/
def mapSet {α : Type} : List (String × α) → String → α → List (String × α)
  | [], k, v => [(k, v)]
  | p :: t, k, v => if p.1 = k then (k, v) :: t else p :: mapSet t k v

def mapGet {α : Type} (m : List (String × α)) (k : String) : Option α :=
  (m.find? (fun p => p.1 = k)).map (fun p => p.2)

/-- Math.max(1, Number(ci.qty || 1)) (agent.ts line 235). -/
def cartQtyVal (ci : CartItem) : Int :=
  max 1 (match ci.qty with | none => 1 | some v => if v = 0 then 1 else v)

/-- cartBySku (agent.ts lines 234-235). -/
def buildCartMap (cart : List CartItem) : List (String × Int) :=
  cart.foldl (fun m ci => mapSet m ci.sku (cartQtyVal ci)) []

/-- The bySku candidate map (agent.ts lines 192-216): external search results
are inserted first, then the products matching the cart's SKUs are fetched
from the catalog and inserted. -/
def candMap (search : List Product) (db : List Product) (cart : List CartItem) :
    List (String × Product) :=
  let m := search.foldl (fun m p => mapSet m p.sku p) []
  let cartSkus := dedupFirst (cart.map (fun c => c.sku))
  (db.filter (fun p => cartSkus.contains p.sku)).foldl (fun m p => mapSet m p.sku p) m

/-- candidates = Array.from(bySku.values()) (agent.ts line 216). -/
def buildCandidates (search : List Product) (db : List Product) (cart : List CartItem) :
    List Product :=
  (candMap search db cart).map (fun p => p.2)

def candHas (candidates : List Product) (sku : String) : Bool :=
  candidates.any (fun c => c.sku = sku)

def bySkuGet (candidates : List Product) (sku : String) : Option Product :=
  candidates.find? (fun c => c.sku = sku)

/-! ### Keyword fallback picker (agent.ts lines 91-126) -/

def unionGroup : List String := ["union", "unión", "roscada"]

def teflonGroup : List String := ["teflon", "teflón", "ptf", "ptfe", "cinta"]

def keywordGroups : List (List String) :=
  [unionGroup,
   teflonGroup,
   ["cople", "acople", "empalme"],
   ["cortatubo", "corta tubo"],
   ["repuesto", "disco", "cuchilla"],
   ["pegamento", "cemento", "adhesivo", "pvc"],
   ["primer", "limpiador"]]

def candHay (c : Product) : String :=
  lowerStr (c.name ++ " " ++ c.description ++ " " ++ c.category ++ " " ++ c.subcategory)

def groupInText (g : List String) (t : String) : Bool :=
  g.any (fun k => strIncludes t k)

def groupInHay (g : List String) (c : Product) : Bool :=
  g.any (fun k => strIncludes (candHay c) k)

def keywordScore (text : String) (c : Product) : Int :=
  (keywordGroups.foldl
    (fun sc g => if groupInText g text && groupInHay g c then sc + 2 else sc) 0)
  + (if c.stock > 0 then 1 else 0)

/-- Stable insertion into a descending-sorted list: x goes before the first
element with a strictly smaller key, after all elements with a key ≥ its own. -/
def insertDescBy {α : Type} (key : α → Int) (x : α) : List α → List α
  | [] => [x]
  | y :: ys => if key x ≥ key y then x :: y :: ys else y :: insertDescBy key x ys

/-- Stable descending sort (the unique stable order produced by the source's
Array.prototype.sort with comparator b.score - a.score). -/
def sortDescBy {α : Type} (key : α → Int) : List α → List α
  | [] => []
  | x :: xs => insertDescBy key x (sortDescBy key xs)

def pickByKeywords (q qNorm : String) (candidates : List Product) (max : Nat) :
    List Product :=
  let text := lowerStr (q ++ " " ++ qNorm)
  let scored := candidates.map (fun c => (c, keywordScore text c))
  ((sortDescBy (fun s => s.2) (scored.filter (fun s => decide (s.2 > 0)))).take max).map
    (fun s => s.1)

/-- Second formulation of the picker, following the words of the spec
(§4.2): the candidates with positive score, sorted descending by score with
ties in original candidate order, truncated to max. Compared against the
source-derived pickByKeywords by theorem. -/
def pickByKeywordsSpec (q qNorm : String) (candidates : List Product) (max : Nat) :
    List Product :=
  let text := lowerStr (q ++ " " ++ qNorm)
  (sortDescBy (keywordScore text)
    (candidates.filter (fun c => decide (keywordScore text c > 0)))).take max

/-! ### Reconciliation pipeline (agent.ts lines 219-530) -/

/-- Needles of /repuesto|disco|cuchilla/i. -/
def spareNeedles : List String := ["repuesto", "disco", "cuchilla"]

/-- Needles of /tefl[oó]n|ptfe|ptf/i. -/
def teflonNeedles : List String := ["teflon", "teflón", "ptfe", "ptf"]

/-- Needles of /un(i|í)on|roscada|tefl(o|ó)n|ptfe|ptf|repuesto|disco|cuchilla/i
(agent.ts line 384); note the source's character class sits between the i and
the o, so the accented spelling it accepts is "uníon", not "unión". -/
def alternateNeedles : List String :=
  ["union", "uníon", "roscada", "teflon", "teflón", "ptfe", "ptf",
   "repuesto", "disco", "cuchilla"]

def mentionsAlternates (q : String) : Bool := ciAny alternateNeedles q

/-- Needles of /un[ií]on|roscada/i (agent.ts line 414). -/
def unionNeedles : List String := ["union", "uníon", "roscada"]

def filterToCandidates (candidates : List Product) (arr : List Line) : List Line :=
  arr.filter (fun x => candHas candidates x.sku)

/-- Quantity reassertion on the validated proposal basket (agent.ts 279-282):
qty := Math.max(1, Number(cartQty ?? it.qty ?? 1)). -/
def reassertLine (cartMap : List (String × Int)) (it : Line) : Line :=
  let v := match mapGet cartMap it.sku with
    | some cq => cq
    | none => match it.qty with | some pq => pq | none => 1
  { it with qty := some (max 1 v) }

def mkLine (p : Product) (q : Int) (why : String) : Line :=
  { sku := p.sku, name := p.name, qty := some q, price := p.price,
    currency := p.currency, stock := p.stock, image_url := p.image_url, why := why }

/-- Predicate of the spare-part ensure-rule (agent.ts line 325). -/
def sparePred (p : Product) : Bool :=
  ciAny spareNeedles (p.name ++ " " ++ p.description) &&
  ciAny ["cortatubo", "corta tubo"] (p.name ++ " " ++ p.description)

/-- Predicate of the teflon ensure-rule (agent.ts line 331). -/
def teflonPred (p : Product) : Bool :=
  ciAny teflonNeedles (p.name ++ " " ++ p.description)

/-- The pushIf helper (agent.ts lines 312-320). -/
def pushIf (candidates : List Product) (pred : Product → Bool) (why : String)
    (ens : List Line) : List Line :=
  match candidates.find? pred with
  | some pick =>
    if ens.any (fun x => x.sku = pick.sku) then ens else ens ++ [mkLine pick 1 why]
  | none => ens

/-- Line-level teflon test on name and sku (agent.ts line 337). -/
def lineTeflonish (x : Line) : Bool := ciAny teflonNeedles (x.name ++ " " ++ x.sku)

/-- The hard-coded teflon fallback fetch (agent.ts lines 338-343): pull the
pinned SKUs from the catalog and prefer an in-stock row. -/
def teflonFetch (db : List Product) : Option Product :=
  let tfetch := db.filter (fun p => p.sku = "PTF-12")
  match tfetch.find? (fun p => p.stock > 0) with
  | some t => some t
  | none => tfetch.head?

/-- One iteration of the loops that re-add a missing client-cart item from
the candidate set (agent.ts lines 298-309, 485-501). -/
def readdCartStep (candidates : List Product) (why : String)
    (ens : List Line) (p : String × Int) : List Line :=
  if ens.any (fun x => x.sku = p.1) then ens
  else if candHas candidates p.1 then
    match bySkuGet candidates p.1 with
    | some src => ens ++ [mkLine src p.2 why]
    | none => ens
  else ens

/-- ADD path, stage 1 (agent.ts lines 293-296): keep the model-added lines
that are valid candidates. -/
def addKeep (candidates : List Product) (basket : List Line) : List Line :=
  basket.filter (fun it => candHas candidates it.sku)

/-- ADD path, stage 2 (agent.ts lines 297-309): re-add client-cart items. -/
def addReaddCart (candidates : List Product) (cartMap : List (String × Int))
    (b : List Line) : List Line :=
  cartMap.foldl (readdCartStep candidates "Conservado de tu selección previa.") b

/-- ADD path, stage 3 (agent.ts lines 322-328): spare-part ensure-rule. -/
def addSpareRule (q : String) (candidates : List Product) (b : List Line) : List Line :=
  if ciAny spareNeedles q then
    pushIf candidates sparePred "Agregado a tu pedido como repuesto del cortatubo." b
  else b

/-- ADD path, stage 4 (agent.ts lines 329-334): teflon ensure-rule. -/
def addTeflonRule (q : String) (candidates : List Product) (b : List Line) : List Line :=
  if ciAny teflonNeedles q then
    pushIf candidates teflonPred "Agregado para sellar roscas (cinta de teflón)." b
  else b

/-- ADD path, stage 5 (agent.ts lines 336-351): pinned teflon SKU backfill. -/
def addTeflonFallback (q : String) (db : List Product) (b : List Line) : List Line :=
  if ciAny teflonNeedles q && !(b.any lineTeflonish) then
    match teflonFetch db with
    | some t =>
      if b.any (fun x => x.sku = t.sku) then b
      else b ++ [mkLine t 1 "Agregado para sellar roscas (cinta de teflón)."]
    | none => b
  else b

/-- ADD path, stage 6 (agent.ts lines 353-375): the case-1 assist ensuring
REP-CORTA-001 when the cart holds CORTA-COBRE-001 and a spare was asked. -/
def addCase1 (q : String) (candidates : List Product) (db : List Product)
    (cartMap : List (String × Int)) (b : List Line) : List Line :=
  if ciAny spareNeedles q && (mapGet cartMap "CORTA-COBRE-001").isSome &&
      !(b.any (fun x => x.sku = "REP-CORTA-001")) then
    match bySkuGet candidates "REP-CORTA-001" with
    | some rep => b ++ [mkLine rep 1 "Agregado a tu pedido como repuesto del cortatubo."]
    | none =>
      match db.find? (fun p => p.sku = "REP-CORTA-001") with
      | some rep =>
        b ++ [mkLine rep 1 "Agregado a tu pedido como repuesto del cortatubo."]
      | none => b
  else b

/-- The ADD path (agent.ts lines 287-377): keep validated proposal lines,
re-add client-cart items, then the bounded ensure-rules and pinned backfills. -/
def addPath (q : String) (candidates : List Product) (db : List Product)
    (cartMap : List (String × Int)) (basket : List Line) : List Line :=
  addCase1 q candidates db cartMap
    (addTeflonFallback q db
      (addTeflonRule q candidates
        (addSpareRule q candidates
          (addReaddCart candidates cartMap
            (addKeep candidates basket)))))

/-- shouldForceReplace (agent.ts lines 387-393). -/
def shouldForceReplace (q : String) (cartMap : List (String × Int)) (basket : List Line)
    (isAdd isReplace : Bool) : Bool :=
  !isAdd && (isReplace ||
    (mentionsAlternates q && decide (basket.length > 0) &&
      basket.all (fun x => (mapGet cartMap x.sku).isSome)))

/-- One iteration of the loop appending keyword picks not already present
(agent.ts lines 422-435). -/
def pickAppendStep (b : List Line) (src : Product) : List Line :=
  if b.any (fun x => x.sku = src.sku) then b
  else b ++ [mkLine src 1 "Seleccionado según tu preferencia."]

/-- Rebuild/augment stage of the force-replace merge, applied to the basket
with previous-cart SKUs already dropped (agent.ts lines 401-437). -/
def forceReplaceRebuild (q qNorm : String) (candidates : List Product)
    (b1 : List Line) : List Line :=
  if b1.length = 0 then
    (pickByKeywords q qNorm candidates 3).map
      (fun src => mkLine src 1 "Seleccionado según tu preferencia.")
  else if mentionsAlternates q then
    if (ciAny unionNeedles q &&
          !(b1.any (fun x => ciAny unionNeedles (x.name ++ " " ++ x.sku)))) ||
        (ciAny teflonNeedles q && !(b1.any lineTeflonish)) ||
        (ciAny spareNeedles q &&
          !(b1.any (fun x => ciAny spareNeedles (x.name ++ " " ++ x.sku)))) then
      (pickByKeywords q qNorm candidates 3).foldl pickAppendStep b1
    else b1
  else b1

/-- The force-replace merge (agent.ts lines 395-437), without the trailing
cart-quantity loop: drop lines whose SKU was in the previous cart; rebuild
from the keyword picker when that empties the basket; otherwise append picks
for a mentioned-but-missing alternate category. -/
def forceReplaceCore (q qNorm : String) (candidates : List Product)
    (cartMap : List (String × Int)) (basket : List Line) : List Line :=
  forceReplaceRebuild q qNorm candidates
    (basket.filter (fun x => (mapGet cartMap x.sku).isNone))

/-- The cart-quantity loop closing the force-replace path (agent.ts 439-443);
the source's if (cartQty) truthiness test skips a zero value. -/
def reassertCartQty (cartMap : List (String × Int)) (basket : List Line) : List Line :=
  basket.map (fun it =>
    match mapGet cartMap it.sku with
    | some cq => if cq = 0 then it else { it with qty := some (max 1 cq) }
    | none => it)

/-- One iteration of the cart-restore loop (agent.ts lines 463-478). -/
def restoreCartStep (candidates : List Product) (b : List Line) (p : String × Int) :
    List Line :=
  if candHas candidates p.1 then
    match bySkuGet candidates p.1 with
    | some src => b ++ [mkLine src p.2 "Conservado de tu selección previa."]
    | none => b
  else b

/-- Empty-basket handling (agent.ts lines 446-481). -/
def emptyBasketRecovery (q qNorm : String) (candidates : List Product)
    (cartMap : List (String × Int)) (isReplace isAdd userWantsRemoval : Bool)
    (basket : List Line) (confirm : String) : List Line × String :=
  if basket.length = 0 then
    if isReplace && !isAdd then
      ((pickByKeywords q qNorm candidates 3).map
          (fun src => mkLine src 1 "Seleccionado según tu preferencia."),
       strOr confirm "¿Así está bien el cambio? Si sí, pulsa **Confirmar e imprimir**.")
    else if !userWantsRemoval && decide (cartMap.length > 0) then
      (cartMap.foldl (restoreCartStep candidates) [],
       strOr confirm "Pulsa **Confirmar e imprimir** para finalizar, o indica cambios.")
    else (basket, confirm)
  else (basket, confirm)

/-- Normal-turn cart preservation (agent.ts lines 484-502). -/
def normalReadd (candidates : List Product) (cartMap : List (String × Int))
    (isReplace userWantsRemoval : Bool) (basket : List Line) : List Line :=
  if !isReplace && !userWantsRemoval then
    cartMap.foldl (readdCartStep candidates "Pedido previo del cliente.") basket
  else basket

/-- Replace only the confirm prompt of a plan. -/
def withConfirm (p : Plan) (c : String) : Plan :=
  { p with confirm := c }

/-- The PVC-leak out-of-stock narrative nudge (agent.ts lines 504-523): only
the reply and the confirm prompt may be rewritten. -/
def nudgePass (q : String) (db : List Product) (plan : Plan) (reply : String) :
    Plan × String :=
  if ciAny ["fuga"] q && ciAny ["pvc"] q then
    match db.find? (fun p => p.sku = "PVC-CPL-050") with
    | some cople =>
      if cople.stock = 0 && plan.basket.any (fun x => x.sku = "PVC-UNION-050") then
        if !(ciAny ["agotad"] reply) then
          (withConfirm plan
             (strOr plan.confirm "¿Desea confirmar la **Unión roscada 1/2\"** como alternativa?"),
           "El **cople recto 1/2\"** está agotado. " ++ reply)
        else (plan, reply)
      else (plan, reply)
    | none => (plan, reply)
  else (plan, reply)

/-- Terminal plan returned on End intent (agent.ts lines 220-227). -/
def endPlanOut : AgentOut :=
  { plan := { title := "", steps := [], basket := [], upsell := [],
              confirm := "Pulsa **Confirmar e imprimir** para finalizar." },
    reply := "Perfecto. Pulsa **Confirmar e imprimir** para terminar. ¡Éxitos con tu proyecto!" }

/-- Fixed fallback returned when the generative output fails to parse
(agent.ts lines 259-266). -/
def fallbackOut : AgentOut :=
  { plan := { title := "", steps := [], basket := [], upsell := [],
              confirm := "¿Deseas confirmar ahora?" },
    reply := "Tengo una sugerencia lista. ¿Deseas confirmar ahora?" }

/-- Validation filter plus quantity reassertion over the proposal's basket
(agent.ts lines 272-282). -/
def validatedBasket (candidates : List Product) (cartMap : List (String × Int))
    (parsed : RawProposal) : List Line :=
  (filterToCandidates candidates parsed.plan.basket).map (reassertLine cartMap)

/-- Basket after the conditional ADD path (agent.ts lines 287-379). -/
def basketAfterAdd (q : String) (candidates db : List Product)
    (cartMap : List (String × Int)) (parsed : RawProposal) : List Line :=
  if addIntent q then
    addPath q candidates db cartMap (validatedBasket candidates cartMap parsed)
  else validatedBasket candidates cartMap parsed

/-- Confirm prompt after the ADD path (agent.ts line 378). -/
def confirmAfterAdd (q : String) (parsed : RawProposal) : String :=
  if addIntent q then
    strOr parsed.plan.confirm "¿Deseas algo más? Si está todo, pulsa **Confirmar e imprimir**."
  else parsed.plan.confirm

/-- Basket after the conditional force-replace merge and its closing
cart-quantity loop (agent.ts lines 383-443). -/
def basketAfterReplace (q : String) (candidates db : List Product)
    (cartMap : List (String × Int)) (parsed : RawProposal) : List Line :=
  if shouldForceReplace q cartMap (basketAfterAdd q candidates db cartMap parsed)
      (addIntent q) (replaceIntent q) then
    reassertCartQty cartMap
      (forceReplaceCore q (normalizeQuery q) candidates cartMap
        (basketAfterAdd q candidates db cartMap parsed))
  else basketAfterAdd q candidates db cartMap parsed

/-- Basket and confirm prompt after empty-basket recovery (agent.ts 446-481). -/
def recoveryOf (q : String) (candidates db : List Product)
    (cartMap : List (String × Int)) (parsed : RawProposal) : List Line × String :=
  emptyBasketRecovery q (normalizeQuery q) candidates cartMap (replaceIntent q)
    (addIntent q) (removeIntent q)
    (basketAfterReplace q candidates db cartMap parsed) (confirmAfterAdd q parsed)

/-- The final basket handed to the nudge pass (agent.ts lines 484-502). -/
def finalBasket (q : String) (candidates db : List Product)
    (cartMap : List (String × Int)) (parsed : RawProposal) : List Line :=
  normalReadd candidates cartMap (replaceIntent q) (removeIntent q)
    (recoveryOf q candidates db cartMap parsed).1

/-- The whole post-parse reconciliation (agent.ts lines 268-530). -/
def reconcileParsed (q : String) (cart : List CartItem) (search : List Product)
    (db : List Product) (parsed : RawProposal) : AgentOut :=
  let candidates := buildCandidates search db cart
  let cartMap := buildCartMap cart
  let pr := nudgePass q db
    { title := parsed.plan.title, steps := parsed.plan.steps,
      basket := finalBasket q candidates db cartMap parsed,
      upsell := filterToCandidates candidates parsed.plan.upsell,
      confirm := (recoveryOf q candidates db cartMap parsed).2 }
    (strOr parsed.reply "Listo. ¿Algo más?")
  { plan := pr.1, reply := pr.2 }

/-- The reconciliation engine: everything the handler does to a turn after the
candidate search, as a pure function of the utterance, the client cart, the
external search results, the catalog and the (possibly unparseable)
generative proposal. -/
def reconcile (q : String) (cart : List CartItem) (search : List Product)
    (db : List Product) (proposal : Option RawProposal) : AgentOut :=
  if endIntent q then endPlanOut
  else
    match proposal with
    | none => fallbackOut
    | some parsed => reconcileParsed q cart search db parsed

/-! ### Lemmas about the insertion-order map -/

theorem mapGet_mapSet {α : Type} (m : List (String × α)) (k k' : String) (v : α) :
    mapGet (mapSet m k v) k' = if k' = k then some v else mapGet m k' := by
  induction m with
  | nil =>
    by_cases h : k' = k
    · simp [mapSet, mapGet, List.find?, h]
    · have hd : (decide (k = k')) = false := decide_eq_false (fun he => h he.symm)
      simp [mapSet, mapGet, List.find?, h, hd]
  | cons p t ih =>
    by_cases hp : p.1 = k
    · by_cases h : k' = k
      · subst h; simp [mapSet, mapGet, hp, List.find?]
      · have hp' : ¬p.1 = k' := fun he => h (he ▸ hp)
        have hd : (decide (k = k')) = false := decide_eq_false (fun he => h he.symm)
        have hd' : (decide (p.1 = k')) = false := decide_eq_false hp'
        simp [mapSet, mapGet, hp, List.find?, h, hd, hd']
    · by_cases hpk : p.1 = k'
      · have h : ¬k' = k := fun he => hp (he ▸ hpk)
        simp [mapSet, mapGet, hp, List.find?, hpk, h]
      · have hd : (decide (p.1 = k')) = false := decide_eq_false hpk
        simp only [mapSet, if_neg hp]
        simp only [mapGet, List.find?, hd]
        simpa [mapGet] using ih

theorem mem_mapSet {α : Type} {m : List (String × α)} {k : String} {v : α}
    {p : String × α} (h : p ∈ mapSet m k v) : p ∈ m ∨ p = (k, v) := by
  induction m with
  | nil => simp [mapSet] at h; simp [h]
  | cons q t ih =>
    by_cases hq : q.1 = k
    · simp only [mapSet, if_pos hq, List.mem_cons] at h
      rcases h with h | h
      · right; exact h
      · left; exact List.mem_cons_of_mem _ h
    · simp only [mapSet, if_neg hq, List.mem_cons] at h
      rcases h with h | h
      · left; exact h ▸ List.mem_cons_self _ _
      · rcases ih h with h' | h'
        · left; exact List.mem_cons_of_mem _ h'
        · right; exact h'

theorem mapSet_keys_sub {α : Type} {m : List (String × α)} {k : String} {v : α}
    {x : String} (h : x ∈ (mapSet m k v).map (fun p => p.1)) :
    x ∈ m.map (fun p => p.1) ∨ x = k := by
  rcases List.mem_map.mp h with ⟨q, hq, hqe⟩
  rcases mem_mapSet hq with h' | h'
  · left; exact List.mem_map.mpr ⟨q, h', hqe⟩
  · right; rw [← hqe, h']

theorem mapSet_keys_nodup {α : Type} {m : List (String × α)} (k : String) (v : α)
    (h : (m.map (fun p => p.1)).Nodup) : ((mapSet m k v).map (fun p => p.1)).Nodup := by
  induction m with
  | nil => simp [mapSet]
  | cons p t ih =>
    simp only [List.map_cons, List.nodup_cons] at h
    by_cases hp : p.1 = k
    · simp only [mapSet, if_pos hp, List.map_cons, List.nodup_cons]
      exact ⟨hp ▸ h.1, h.2⟩
    · simp only [mapSet, if_neg hp, List.map_cons, List.nodup_cons]
      refine ⟨?_, ih h.2⟩
      intro hmem
      rcases mapSet_keys_sub hmem with h' | h'
      · exact h.1 h'
      · exact hp h'

theorem mapGet_some_mem {α : Type} {m : List (String × α)} {k : String} {v : α}
    (h : mapGet m k = some v) : (k, v) ∈ m := by
  unfold mapGet at h
  cases hf : m.find? (fun p => p.1 = k) with
  | none => simp [hf] at h
  | some p =>
    simp only [hf, Option.map_some'] at h
    have h1 := List.find?_some hf
    have h2 := List.mem_of_find?_eq_some hf
    simp only [decide_eq_true_eq] at h1
    cases h
    have : p = (k, p.2) := by rw [← h1]
    rw [← this]; exact h2

theorem mapGet_isSome_mem_keys {α : Type} {m : List (String × α)} {k : String}
    (h : (mapGet m k).isSome = true) : k ∈ m.map (fun p => p.1) := by
  cases hv : mapGet m k with
  | none => simp [hv] at h
  | some v =>
    have := mapGet_some_mem hv
    exact List.mem_map.mpr ⟨(k, v), this, rfl⟩

theorem mapGet_eq_some_of_mem_nodup {α : Type} {m : List (String × α)} {k : String}
    {v : α} (hn : (m.map (fun p => p.1)).Nodup) (h : (k, v) ∈ m) :
    mapGet m k = some v := by
  induction m with
  | nil => simp at h
  | cons p t ih =>
    simp only [List.map_cons, List.nodup_cons] at hn
    rcases List.mem_cons.mp h with h1 | h1
    · rw [← h1]; simp [mapGet, List.find?]
    · have hne : p.1 ≠ k := by
        intro he
        exact hn.1 (he ▸ List.mem_map.mpr ⟨(k, v), h1, rfl⟩)
      have hd : (decide (p.1 = k)) = false := decide_eq_false hne
      simp only [mapGet, List.find?, hd]
      exact ih hn.2 h1

/-! ### Folding mapSet over a list -/

theorem foldl_mapSet_get_of_not_mem {α β : Type} (f : β → String) (g : β → α)
    {k : String} :
    ∀ (xs : List β) (m : List (String × α)), k ∉ xs.map f →
      mapGet (xs.foldl (fun m x => mapSet m (f x) (g x)) m) k = mapGet m k := by
  intro xs
  induction xs with
  | nil => intro m _; rfl
  | cons x t ih =>
    intro m hk
    simp only [List.map_cons, List.mem_cons] at hk
    push_neg at hk
    rw [List.foldl_cons, ih _ hk.2, mapGet_mapSet, if_neg hk.1]

theorem foldl_mapSet_mem {α β : Type} (f : β → String) (g : β → α) :
    ∀ (xs : List β) (m : List (String × α)) (p : String × α),
      p ∈ xs.foldl (fun m x => mapSet m (f x) (g x)) m →
      p ∈ m ∨ ∃ x ∈ xs, p = (f x, g x) := by
  intro xs
  induction xs with
  | nil => intro m p h; exact Or.inl h
  | cons x t ih =>
    intro m p h
    rw [List.foldl_cons] at h
    rcases ih _ _ h with h' | h'
    · rcases mem_mapSet h' with h'' | h''
      · exact Or.inl h''
      · exact Or.inr ⟨x, List.mem_cons_self _ _, h''⟩
    · rcases h' with ⟨y, hy, hye⟩
      exact Or.inr ⟨y, List.mem_cons_of_mem _ hy, hye⟩

theorem foldl_mapSet_keys_nodup {α β : Type} (f : β → String) (g : β → α) :
    ∀ (xs : List β) (m : List (String × α)), (m.map (fun p => p.1)).Nodup →
      (((xs.foldl (fun m x => mapSet m (f x) (g x)) m)).map (fun p => p.1)).Nodup := by
  intro xs
  induction xs with
  | nil => intro m h; exact h
  | cons x t ih =>
    intro m h
    rw [List.foldl_cons]
    exact ih _ (mapSet_keys_nodup _ _ h)

theorem foldl_mapSet_isSome_of_mem {α β : Type} (f : β → String) (g : β → α) :
    ∀ (xs : List β) (m : List (String × α)) {k : String},
      ((mapGet m k).isSome = true ∨ k ∈ xs.map f) →
      (mapGet (xs.foldl (fun m x => mapSet m (f x) (g x)) m) k).isSome = true := by
  intro xs
  induction xs with
  | nil =>
    intro m k h
    rcases h with h | h
    · exact h
    · simp at h
  | cons x t ih =>
    intro m k h
    rw [List.foldl_cons]
    by_cases hfx : k = f x
    · apply ih
      left
      rw [mapGet_mapSet, if_pos hfx]
      rfl
    · apply ih
      rcases h with h | h
      · left; rw [mapGet_mapSet, if_neg hfx]; exact h
      · simp only [List.map_cons, List.mem_cons] at h
        rcases h with h | h
        · exact absurd h hfx
        · right; exact h

/-! ### Cart map lemmas -/

theorem cartQtyVal_pos (ci : CartItem) : 1 ≤ cartQtyVal ci := le_max_left _ _

theorem buildCartMap_val_pos {cart : List CartItem} {s : String} {v : Int}
    (h : mapGet (buildCartMap cart) s = some v) : 1 ≤ v := by
  have hm := mapGet_some_mem h
  rcases foldl_mapSet_mem (fun ci => ci.sku) cartQtyVal cart [] _ hm with h' | h'
  · simp at h'
  · rcases h' with ⟨ci, _, he⟩
    have : v = cartQtyVal ci := congrArg Prod.snd he
    rw [this]
    exact cartQtyVal_pos ci

theorem buildCartMap_keys_nodup (cart : List CartItem) :
    ((buildCartMap cart).map (fun p => p.1)).Nodup :=
  foldl_mapSet_keys_nodup _ _ cart [] (by simp)

theorem buildCartMap_keys_sub {cart : List CartItem} {s : String}
    (h : (mapGet (buildCartMap cart) s).isSome = true) :
    s ∈ cart.map (fun ci => ci.sku) := by
  have := mapGet_isSome_mem_keys h
  rcases List.mem_map.mp this with ⟨p, hp, hpe⟩
  rcases foldl_mapSet_mem (fun ci => ci.sku) cartQtyVal cart [] _ hp with h' | h'
  · simp at h'
  · rcases h' with ⟨ci, hci, he⟩
    have : p.1 = ci.sku := congrArg Prod.fst he
    exact List.mem_map.mpr ⟨ci, hci, by rw [← hpe, this]⟩

theorem foldl_cartStep_get {s : String} {q : Option Int} :
    ∀ (xs : List CartItem) (m : List (String × Int)),
      (xs.map (fun ci => ci.sku)).Nodup → (⟨s, q⟩ : CartItem) ∈ xs →
      mapGet (xs.foldl (fun m ci => mapSet m ci.sku (cartQtyVal ci)) m) s =
        some (cartQtyVal ⟨s, q⟩) := by
  intro xs
  induction xs with
  | nil => intro m _ h; simp at h
  | cons ci t ih =>
    intro m hn h
    simp only [List.map_cons, List.nodup_cons] at hn
    rw [List.foldl_cons]
    rcases List.mem_cons.mp h with h1 | h1
    · have hsku : ci.sku = s := by rw [← h1]
      rw [foldl_mapSet_get_of_not_mem (fun ci => ci.sku) cartQtyVal t _ (hsku ▸ hn.1)]
      rw [mapGet_mapSet, if_pos hsku.symm]
      rw [← h1]
    · exact ih _ hn.2 h1

theorem buildCartMap_get_of_nodup {cart : List CartItem} {s : String} {q : Option Int}
    (hn : (cart.map (fun ci => ci.sku)).Nodup) (h : (⟨s, q⟩ : CartItem) ∈ cart) :
    mapGet (buildCartMap cart) s = some (cartQtyVal ⟨s, q⟩) :=
  foldl_cartStep_get cart [] hn h

/-! ### Candidate set lemmas -/

theorem candHas_iff {candidates : List Product} {s : String} :
    candHas candidates s = true ↔ ∃ p ∈ candidates, p.sku = s := by
  unfold candHas
  rw [List.any_eq_true]
  simp

theorem candHas_of_mem {candidates : List Product} {p : Product}
    (h : p ∈ candidates) : candHas candidates p.sku = true :=
  candHas_iff.mpr ⟨p, h, rfl⟩

theorem bySkuGet_of_candHas {candidates : List Product} {s : String}
    (h : candHas candidates s = true) :
    ∃ p, bySkuGet candidates s = some p ∧ p.sku = s ∧ p ∈ candidates := by
  rcases candHas_iff.mp h with ⟨p, hp, hps⟩
  have : (candidates.find? (fun c => c.sku = s)).isSome = true :=
    List.find?_isSome.mpr ⟨p, hp, by simp [hps]⟩
  cases hf : candidates.find? (fun c => c.sku = s) with
  | none => rw [hf] at this; simp at this
  | some r =>
    refine ⟨r, hf, ?_, List.mem_of_find?_eq_some hf⟩
    have := List.find?_some hf
    simpa using this

theorem bySkuGet_none_of_not_candHas {candidates : List Product} {s : String}
    (h : candHas candidates s = false) : bySkuGet candidates s = none := by
  unfold bySkuGet
  rw [List.find?_eq_none]
  intro p hp
  simp only [decide_eq_true_eq]
  intro hc
  rw [show candHas candidates s = true from candHas_iff.mpr ⟨p, hp, hc⟩] at h
  exact absurd h (by simp)

theorem candMap_entry_sku (search db : List Product) (cart : List CartItem) :
    ∀ p ∈ candMap search db cart, p.2.sku = p.1 := by
  intro p hp
  unfold candMap at hp
  rcases foldl_mapSet_mem (fun p : Product => p.sku) id _ _ _ hp with h | h
  · rcases foldl_mapSet_mem (fun p : Product => p.sku) id _ _ _ h with h' | h'
    · simp at h'
    · rcases h' with ⟨x, _, he⟩
      simp [he]
  · rcases h with ⟨x, _, he⟩
    simp [he]

theorem buildCandidates_nodup_skus (search db : List Product) (cart : List CartItem) :
    ((buildCandidates search db cart).map (fun p => p.sku)).Nodup := by
  unfold buildCandidates
  rw [List.map_map]
  have he : (candMap search db cart).map (fun p => p.2.sku) =
      (candMap search db cart).map (fun p => p.1) :=
    List.map_congr_left (fun p hp => candMap_entry_sku search db cart p hp)
  show ((candMap search db cart).map (fun p => p.2.sku)).Nodup
  rw [he]
  unfold candMap
  exact foldl_mapSet_keys_nodup _ _ _ _
    (foldl_mapSet_keys_nodup _ _ _ [] (by simp))

theorem mem_dedupFirstAux {x : String} :
    ∀ (l : List String) (seen : List String), x ∈ l → ¬ seen.contains x = true →
      x ∈ dedupFirstAux seen l := by
  intro l
  induction l with
  | nil => intro seen h _; simp at h
  | cons y t ih =>
    intro seen h hs
    rcases List.mem_cons.mp h with h1 | h1
    · subst h1
      by_cases hc : seen.contains x = true
      · exact absurd hc hs
      · simp only [dedupFirstAux, hc, if_false]
        exact List.mem_cons_self _ _
    · by_cases hc : seen.contains y = true
      · simp only [dedupFirstAux, hc, if_true]
        exact ih seen h1 hs
      · simp only [dedupFirstAux, hc, if_false]
        by_cases hxy : x = y
        · subst hxy; exact List.mem_cons_self _ _
        · apply List.mem_cons_of_mem
          apply ih _ h1
          intro hcon
          have : x ∈ y :: seen := List.elem_iff.mp hcon
          rcases List.mem_cons.mp this with h2 | h2
          · exact hxy h2
          · exact hs (List.elem_iff.mpr h2)

theorem mem_dedupFirst {x : String} {l : List String} (h : x ∈ l) :
    x ∈ dedupFirst l :=
  mem_dedupFirstAux l [] h (by simp)

/-- The handler force-includes every cart SKU that exists in the catalog into
the candidate set (agent.ts lines 206-214). -/
theorem candHas_of_cart_db {search db : List Product} {cart : List CartItem}
    {ci : CartItem} {p : Product} (hci : ci ∈ cart) (hp : p ∈ db)
    (hsku : p.sku = ci.sku) :
    candHas (buildCandidates search db cart) ci.sku = true := by
  have hmem : ci.sku ∈ dedupFirst (cart.map (fun c => c.sku)) :=
    mem_dedupFirst (List.mem_map.mpr ⟨ci, hci, rfl⟩)
  have hfil : p ∈ (db.filter
      (fun r => (dedupFirst (cart.map (fun c => c.sku))).contains r.sku)) := by
    rw [List.mem_filter]
    exact ⟨hp, by rw [hsku]; exact List.elem_iff.mpr hmem⟩
  have hkey : (mapGet (candMap search db cart) ci.sku).isSome = true := by
    unfold candMap
    apply foldl_mapSet_isSome_of_mem
    right
    exact List.mem_map.mpr ⟨p, hfil, hsku⟩
  cases hv : mapGet (candMap search db cart) ci.sku with
  | none => rw [hv] at hkey; simp at hkey
  | some v =>
    have hvm := mapGet_some_mem hv
    have hvs : v.sku = ci.sku := candMap_entry_sku search db cart _ hvm
    apply candHas_iff.mpr
    refine ⟨v, ?_, hvs⟩
    unfold buildCandidates
    exact List.mem_map.mpr ⟨(ci.sku, v), hvm, rfl⟩

/-! ### Sorting lemmas -/

theorem insertDescBy_perm {α : Type} (key : α → Int) (x : α) (l : List α) :
    (insertDescBy key x l).Perm (x :: l) := by
  induction l with
  | nil => simp [insertDescBy]
  | cons y ys ih =>
    by_cases h : key x ≥ key y
    · simp [insertDescBy, h]
    · simp only [insertDescBy, if_neg h]
      exact (ih.cons y).trans (List.Perm.swap x y ys)

theorem sortDescBy_perm {α : Type} (key : α → Int) (l : List α) :
    (sortDescBy key l).Perm l := by
  induction l with
  | nil => simp [sortDescBy]
  | cons x xs ih =>
    exact (insertDescBy_perm key x (sortDescBy key xs)).trans (ih.cons x)

theorem mem_sortDescBy {α : Type} {key : α → Int} {l : List α} {x : α} :
    x ∈ sortDescBy key l ↔ x ∈ l :=
  (sortDescBy_perm key l).mem_iff

theorem insertDescBy_map {α β : Type} (key : β → Int) (g : α → β) (x : α) :
    ∀ l : List α,
      insertDescBy key (g x) (l.map g) = (insertDescBy (fun a => key (g a)) x l).map g := by
  intro l
  induction l with
  | nil => simp [insertDescBy]
  | cons y ys ih =>
    by_cases h : key (g x) ≥ key (g y)
    · simp [insertDescBy, h]
    · simp only [List.map_cons, insertDescBy, if_neg h, List.map_cons, ih]

theorem sortDescBy_map {α β : Type} (key : β → Int) (g : α → β) :
    ∀ l : List α, sortDescBy key (l.map g) = (sortDescBy (fun a => key (g a)) l).map g := by
  intro l
  induction l with
  | nil => simp [sortDescBy]
  | cons x xs ih =>
    simp only [List.map_cons, sortDescBy, ih]
    exact insertDescBy_map key g x _

/-- The head of the stable descending sort is the strict maximum when one
exists (all other elements are equal to it or have a strictly smaller key). -/
theorem sortDescBy_head_max {α : Type} {key : α → Int} {l : List α} {c : α}
    (hc : c ∈ l) (hmax : ∀ y ∈ l, y = c ∨ key y < key c) :
    (sortDescBy key l).head? = some c := by
  induction l with
  | nil => simp at hc
  | cons x xs ih =>
    simp only [sortDescBy]
    rcases List.mem_cons.mp hc with h1 | h1
    · subst h1
      cases hsx : sortDescBy key xs with
      | nil => simp [insertDescBy]
      | cons z zs =>
        have hz : z ∈ xs := mem_sortDescBy.mp
          (by rw [hsx]; exact List.mem_cons_self _ _)
        rcases hmax z (List.mem_cons_of_mem _ hz) with h2 | h2
        · subst h2; simp [insertDescBy, le_refl]
        · simp [insertDescBy, le_of_lt h2]
    · have hxc : x = c ∨ key x < key c := hmax x (List.mem_cons_self _ _)
      have hih : (sortDescBy key xs).head? = some c :=
        ih h1 (fun y hy => hmax y (List.mem_cons_of_mem _ hy))
      cases hsx : sortDescBy key xs with
      | nil => rw [hsx] at hih; simp at hih
      | cons z zs =>
        rw [hsx] at hih
        simp only [List.head?] at hih
        cases hih
        rcases hxc with h2 | h2
        · subst h2
          simp [insertDescBy, le_refl]
        · have : ¬ key x ≥ key c := not_le.mpr h2
          simp [insertDescBy, this]

/-! ### Keyword picker lemmas -/

/-- Map/filter/sort/take pipeline commutation used to compare the two picker
formulations. -/
theorem pick_pipeline {α : Type} (f : α → Int) (l : List α) (n : Nat) :
    ((sortDescBy (fun s : α × Int => s.2)
        ((l.map (fun c => (c, f c))).filter (fun s => decide (s.2 > 0)))).take n).map
      (fun s => s.1)
    = (sortDescBy f (l.filter (fun c => decide (f c > 0)))).take n := by
  rw [List.filter_map]
  rw [sortDescBy_map (fun s : α × Int => s.2) (fun c => (c, f c))]
  rw [← List.map_take, List.map_map]
  have h : ((fun s : α × Int => s.1) ∘ fun c => (c, f c)) = id := rfl
  rw [h, List.map_id]
  rfl

/-- C6 general part: the source picker coincides with the spec-worded
formulation (filter positive scores, stable-sort descending, truncate). -/
theorem pickByKeywords_eq_spec (q qNorm : String) (candidates : List Product)
    (max : Nat) :
    pickByKeywords q qNorm candidates max = pickByKeywordsSpec q qNorm candidates max := by
  simp only [pickByKeywords, pickByKeywordsSpec]
  exact pick_pipeline _ _ _

theorem pickByKeywords_sub {q qNorm : String} {candidates : List Product}
    {max : Nat} {p : Product} (h : p ∈ pickByKeywords q qNorm candidates max) :
    p ∈ candidates := by
  rw [pickByKeywords_eq_spec] at h
  simp only [pickByKeywordsSpec] at h
  have h2 := (List.take_sublist _ _).mem h
  have h3 := mem_sortDescBy.mp h2
  exact (List.mem_filter.mp h3).1

theorem pickByKeywords_nodup_skus {q qNorm : String} {candidates : List Product}
    {max : Nat} (h : (candidates.map (fun p => p.sku)).Nodup) :
    ((pickByKeywords q qNorm candidates max).map (fun p => p.sku)).Nodup := by
  rw [pickByKeywords_eq_spec]
  simp only [pickByKeywordsSpec]
  apply List.Nodup.sublist (List.Sublist.map _ (List.take_sublist _ _))
  have hperm := (sortDescBy_perm
    (keywordScore (lowerStr (q ++ " " ++ qNorm)))
    (candidates.filter
      (fun c => decide (keywordScore (lowerStr (q ++ " " ++ qNorm)) c > 0)))).map
    (fun p => p.sku)
  apply hperm.nodup_iff.mpr
  exact List.Nodup.sublist (List.Sublist.map _ (List.filter_sublist _)) h

/-! ### Generic lemmas for the push-loop folds -/

/-- Each of the source's for-loops over lines either keeps the accumulator or
pushes one new line; membership in the result decomposes accordingly. -/
theorem foldl_append_mem {β : Type} {f : List Line → β → List Line}
    {P : Line → β → Prop}
    (hf : ∀ b x, f b x = b ∨ ∃ nl, f b x = b ++ [nl] ∧ P nl x) :
    ∀ (xs : List β) (b : List Line) (l : Line), l ∈ xs.foldl f b →
      l ∈ b ∨ ∃ x ∈ xs, P l x := by
  intro xs
  induction xs with
  | nil => intro b l h; exact Or.inl h
  | cons x t ih =>
    intro b l h
    rw [List.foldl_cons] at h
    rcases ih _ _ h with h' | h'
    · rcases hf b x with he | ⟨nl, he, hp⟩
      · rw [he] at h'; exact Or.inl h'
      · rw [he] at h'
        rcases List.mem_append.mp h' with h'' | h''
        · exact Or.inl h''
        · simp only [List.mem_singleton] at h''
          exact Or.inr ⟨x, List.mem_cons_self _ _, h'' ▸ hp⟩
    · rcases h' with ⟨y, hy, hp⟩
      exact Or.inr ⟨y, List.mem_cons_of_mem _ hy, hp⟩

/-- Push-loops never remove lines. -/
theorem foldl_append_mono {β : Type} {f : List Line → β → List Line}
    (hf : ∀ b x, f b x = b ∨ ∃ nl, f b x = b ++ [nl]) :
    ∀ (xs : List β) (b : List Line) (l : Line), l ∈ b → l ∈ xs.foldl f b := by
  intro xs
  induction xs with
  | nil => intro b l h; exact h
  | cons x t ih =>
    intro b l h
    rw [List.foldl_cons]
    apply ih
    rcases hf b x with he | ⟨nl, he⟩
    · rw [he]; exact h
    · rw [he]; exact List.mem_append_left _ h

/-- Push-loops guarded by a SKU-membership test preserve SKU uniqueness. -/
theorem foldl_nodup_guard {β : Type} {f : List Line → β → List Line}
    (hf : ∀ b x, f b x = b ∨
      ∃ nl, f b x = b ++ [nl] ∧ ∀ l ∈ b, l.sku ≠ nl.sku) :
    ∀ (xs : List β) (b : List Line), (b.map (fun l => l.sku)).Nodup →
      ((xs.foldl f b).map (fun l => l.sku)).Nodup := by
  intro xs
  induction xs with
  | nil => intro b h; exact h
  | cons x t ih =>
    intro b h
    rw [List.foldl_cons]
    apply ih
    rcases hf b x with he | ⟨nl, he, hg⟩
    · rw [he]; exact h
    · rw [he, List.map_append]
      rw [List.nodup_append]
      refine ⟨h, by simp, ?_⟩
      intro a ha hb
      simp only [List.map_cons, List.map_nil, List.mem_singleton] at hb
      rcases List.mem_map.mp ha with ⟨l, hl, hle⟩
      exact hg l hl (by rw [hle, hb])

/-- Push-loops that draw each new SKU from the entry being processed preserve
SKU uniqueness when the accumulator's SKUs and the entry keys are jointly
duplicate-free. -/
theorem foldl_nodup_keys {β : Type} {f : List Line → β → List Line}
    (keyOf : β → String)
    (hf : ∀ b x, f b x = b ∨ ∃ nl, f b x = b ++ [nl] ∧ nl.sku = keyOf x) :
    ∀ (xs : List β) (b : List Line),
      (b.map (fun l => l.sku) ++ xs.map keyOf).Nodup →
      ((xs.foldl f b).map (fun l => l.sku)).Nodup := by
  intro xs
  induction xs with
  | nil =>
    intro b h
    simpa using h
  | cons x t ih =>
    intro b h
    rw [List.foldl_cons]
    rcases hf b x with he | ⟨nl, he, hk⟩
    · rw [he]
      apply ih
      have hsub : (b.map (fun l => l.sku) ++ t.map keyOf).Sublist
          (b.map (fun l => l.sku) ++ (x :: t).map keyOf) := by
        apply List.Sublist.append_left
        simp only [List.map_cons]
        exact List.sublist_cons_self _ _
      exact hsub.nodup h
    · rw [he]
      apply ih
      rw [List.map_append]
      have : (b.map (fun l => l.sku) ++ [nl].map (fun l => l.sku)) ++ t.map keyOf =
          b.map (fun l => l.sku) ++ (nl.sku :: t.map keyOf) := by
        rw [List.append_assoc]; rfl
      rw [this, hk]
      simpa using h

/-! ### Step shape lemmas -/

theorem bySkuGet_props {candidates : List Product} {s : String} {src : Product}
    (h : bySkuGet candidates s = some src) : src.sku = s ∧ src ∈ candidates := by
  unfold bySkuGet at h
  have h1 := List.find?_some h
  have h2 := List.mem_of_find?_eq_some h
  simp only [decide_eq_true_eq] at h1
  exact ⟨h1, h2⟩

theorem mkLine_sku (p : Product) (q : Int) (w : String) : (mkLine p q w).sku = p.sku := rfl

theorem mkLine_qty (p : Product) (q : Int) (w : String) : (mkLine p q w).qty = some q := rfl

theorem readdCartStep_shape (candidates : List Product) (why : String)
    (b : List Line) (p : String × Int) :
    readdCartStep candidates why b p = b ∨
    ∃ src, bySkuGet candidates p.1 = some src ∧
      b.any (fun x => x.sku = p.1) = false ∧
      readdCartStep candidates why b p = b ++ [mkLine src p.2 why] := by
  unfold readdCartStep
  by_cases h1 : b.any (fun x => x.sku = p.1) = true
  · left; simp [h1]
  · rw [Bool.not_eq_true] at h1
    by_cases h2 : candHas candidates p.1 = true
    · rcases bySkuGet_of_candHas h2 with ⟨src, hsrc, _, _⟩
      right
      exact ⟨src, hsrc, h1, by simp [h1, h2, hsrc]⟩
    · rw [Bool.not_eq_true] at h2
      left; simp [h1, h2]

theorem pickAppendStep_shape (b : List Line) (src : Product) :
    pickAppendStep b src = b ∨
    (b.any (fun x => x.sku = src.sku) = false ∧
      pickAppendStep b src = b ++ [mkLine src 1 "Seleccionado según tu preferencia."]) := by
  unfold pickAppendStep
  by_cases h1 : b.any (fun x => x.sku = src.sku) = true
  · left; simp [h1]
  · rw [Bool.not_eq_true] at h1
    right; exact ⟨h1, by simp [h1]⟩

theorem restoreCartStep_shape (candidates : List Product) (b : List Line)
    (p : String × Int) :
    restoreCartStep candidates b p = b ∨
    ∃ src, bySkuGet candidates p.1 = some src ∧
      restoreCartStep candidates b p =
        b ++ [mkLine src p.2 "Conservado de tu selección previa."] := by
  unfold restoreCartStep
  by_cases h2 : candHas candidates p.1 = true
  · rcases bySkuGet_of_candHas h2 with ⟨src, hsrc, _, _⟩
    right
    exact ⟨src, hsrc, by simp [h2, hsrc]⟩
  · rw [Bool.not_eq_true] at h2
    left; simp [h2]

theorem pushIf_shape (candidates : List Product) (pred : Product → Bool)
    (why : String) (ens : List Line) :
    pushIf candidates pred why ens = ens ∨
    ∃ pick, candidates.find? pred = some pick ∧
      ens.any (fun x => x.sku = pick.sku) = false ∧
      pushIf candidates pred why ens = ens ++ [mkLine pick 1 why] := by
  unfold pushIf
  cases hf : candidates.find? pred with
  | none => left; rfl
  | some pick =>
    by_cases h1 : ens.any (fun x => x.sku = pick.sku) = true
    · left; simp [h1]
    · rw [Bool.not_eq_true] at h1
      right
      exact ⟨pick, rfl, h1, by simp [h1]⟩

theorem teflonFetch_props {db : List Product} {t : Product}
    (h : teflonFetch db = some t) : t ∈ db ∧ t.sku = "PTF-12" := by
  simp only [teflonFetch] at h
  cases hf : (db.filter (fun p => p.sku = "PTF-12")).find? (fun p => p.stock > 0) with
  | some r =>
    rw [hf] at h
    cases h
    have hm := List.mem_of_find?_eq_some hf
    rw [List.mem_filter] at hm
    exact ⟨hm.1, by simpa using hm.2⟩
  | none =>
    rw [hf] at h
    simp only at h
    cases hl : (db.filter (fun p => p.sku = "PTF-12")).head? with
    | none => rw [hl] at h; cases h
    | some r =>
      rw [hl] at h
      cases h
      have hm : t ∈ db.filter (fun p => p.sku = "PTF-12") := by
        cases hfl : db.filter (fun p => p.sku = "PTF-12") with
        | nil => rw [hfl] at hl; cases hl
        | cons a l =>
          rw [hfl] at hl
          simp only [List.head?] at hl
          cases hl
          exact List.mem_cons_self _ _
      rw [List.mem_filter] at hm
      exact ⟨hm.1, by simpa using hm.2⟩

/-! ### ADD path stage lemmas -/

theorem any_sku_false {b : List Line} {k : String}
    (h : b.any (fun x => x.sku = k) = false) : ∀ l ∈ b, l.sku ≠ k := by
  intro l hl he
  have : b.any (fun x => x.sku = k) = true := List.any_eq_true.mpr ⟨l, hl, by simp [he]⟩
  rw [h] at this
  cases this

theorem pushIf_mem {candidates : List Product} {pred : Product → Bool} {why : String}
    {ens : List Line} {l : Line} (h : l ∈ pushIf candidates pred why ens) :
    l ∈ ens ∨ ∃ pick ∈ candidates, l = mkLine pick 1 why := by
  rcases pushIf_shape candidates pred why ens with he | ⟨pick, hf, _, he⟩
  · rw [he] at h; exact Or.inl h
  · rw [he] at h
    rcases List.mem_append.mp h with h' | h'
    · exact Or.inl h'
    · simp only [List.mem_singleton] at h'
      exact Or.inr ⟨pick, List.mem_of_find?_eq_some hf, h'⟩

theorem pushIf_mono {candidates : List Product} {pred : Product → Bool} {why : String}
    {ens : List Line} {l : Line} (h : l ∈ ens) : l ∈ pushIf candidates pred why ens := by
  rcases pushIf_shape candidates pred why ens with he | ⟨_, _, _, he⟩
  · rw [he]; exact h
  · rw [he]; exact List.mem_append_left _ h

theorem addReaddCart_mem {candidates : List Product} {cm : List (String × Int)}
    {b : List Line} {l : Line} (h : l ∈ addReaddCart candidates cm b) :
    l ∈ b ∨ ∃ p ∈ cm, ∃ src, bySkuGet candidates p.1 = some src ∧
      l = mkLine src p.2 "Conservado de tu selección previa." := by
  refine foldl_append_mem
    (P := fun l p => ∃ src, bySkuGet candidates p.1 = some src ∧
      l = mkLine src p.2 "Conservado de tu selección previa.") ?_ cm b l h
  intro b' p
  rcases readdCartStep_shape candidates "Conservado de tu selección previa." b' p with
    he | ⟨src, hsrc, hg, he⟩
  · exact Or.inl he
  · exact Or.inr ⟨mkLine src p.2 _, he, src, hsrc, rfl⟩

theorem addReaddCart_mono {candidates : List Product} {cm : List (String × Int)}
    {b : List Line} {l : Line} (h : l ∈ b) : l ∈ addReaddCart candidates cm b := by
  refine foldl_append_mono ?_ cm b l h
  intro b' p
  rcases readdCartStep_shape candidates "Conservado de tu selección previa." b' p with
    he | ⟨src, _, _, he⟩
  · exact Or.inl he
  · exact Or.inr ⟨_, he⟩

theorem addSpareRule_mem {q : String} {candidates : List Product} {b : List Line}
    {l : Line} (h : l ∈ addSpareRule q candidates b) :
    l ∈ b ∨ ∃ pick ∈ candidates,
      l = mkLine pick 1 "Agregado a tu pedido como repuesto del cortatubo." := by
  unfold addSpareRule at h
  split at h
  · exact pushIf_mem h
  · exact Or.inl h

theorem addSpareRule_mono {q : String} {candidates : List Product} {b : List Line}
    {l : Line} (h : l ∈ b) : l ∈ addSpareRule q candidates b := by
  unfold addSpareRule
  split
  · exact pushIf_mono h
  · exact h

theorem addTeflonRule_mem {q : String} {candidates : List Product} {b : List Line}
    {l : Line} (h : l ∈ addTeflonRule q candidates b) :
    l ∈ b ∨ ∃ pick ∈ candidates,
      l = mkLine pick 1 "Agregado para sellar roscas (cinta de teflón)." := by
  unfold addTeflonRule at h
  split at h
  · exact pushIf_mem h
  · exact Or.inl h

theorem addTeflonRule_mono {q : String} {candidates : List Product} {b : List Line}
    {l : Line} (h : l ∈ b) : l ∈ addTeflonRule q candidates b := by
  unfold addTeflonRule
  split
  · exact pushIf_mono h
  · exact h

theorem addTeflonFallback_mem {q : String} {db : List Product} {b : List Line}
    {l : Line} (h : l ∈ addTeflonFallback q db b) :
    l ∈ b ∨ ∃ t, teflonFetch db = some t ∧
      l = mkLine t 1 "Agregado para sellar roscas (cinta de teflón)." := by
  unfold addTeflonFallback at h
  split at h
  · split at h
    · split at h
      · exact Or.inl h
      · rcases List.mem_append.mp h with h' | h'
        · exact Or.inl h'
        · simp only [List.mem_singleton] at h'
          rename_i t heq _
          exact Or.inr ⟨t, heq, h'⟩
    · exact Or.inl h
  · exact Or.inl h

theorem addTeflonFallback_mono {q : String} {db : List Product} {b : List Line}
    {l : Line} (h : l ∈ b) : l ∈ addTeflonFallback q db b := by
  unfold addTeflonFallback
  split
  · split
    · split
      · exact h
      · exact List.mem_append_left _ h
    · exact h
  · exact h

theorem addCase1_mem {q : String} {candidates db : List Product}
    {cm : List (String × Int)} {b : List Line} {l : Line}
    (h : l ∈ addCase1 q candidates db cm b) :
    l ∈ b ∨ ∃ rep, (bySkuGet candidates "REP-CORTA-001" = some rep ∨
        db.find? (fun p => p.sku = "REP-CORTA-001") = some rep) ∧
      l = mkLine rep 1 "Agregado a tu pedido como repuesto del cortatubo." := by
  unfold addCase1 at h
  split at h
  · split at h
    · rcases List.mem_append.mp h with h' | h'
      · exact Or.inl h'
      · simp only [List.mem_singleton] at h'
        rename_i rep heq
        exact Or.inr ⟨rep, Or.inl heq, h'⟩
    · split at h
      · rcases List.mem_append.mp h with h' | h'
        · exact Or.inl h'
        · simp only [List.mem_singleton] at h'
          rename_i rep heq
          exact Or.inr ⟨rep, Or.inr heq, h'⟩
      · exact Or.inl h
  · exact Or.inl h

theorem addCase1_mono {q : String} {candidates db : List Product}
    {cm : List (String × Int)} {b : List Line} {l : Line} (h : l ∈ b) :
    l ∈ addCase1 q candidates db cm b := by
  unfold addCase1
  split
  · split
    · exact List.mem_append_left _ h
    · split
      · exact List.mem_append_left _ h
      · exact h
  · exact h

/-! ### ADD path composite properties -/

theorem addPath_mem {q : String} {candidates db : List Product}
    {cm : List (String × Int)} {b : List Line} {l : Line}
    (h : l ∈ addPath q candidates db cm b) :
    (l ∈ b ∧ candHas candidates l.sku = true)
    ∨ (∃ p ∈ cm, ∃ src, bySkuGet candidates p.1 = some src ∧
        l = mkLine src p.2 "Conservado de tu selección previa.")
    ∨ (∃ pick ∈ candidates,
        l = mkLine pick 1 "Agregado a tu pedido como repuesto del cortatubo." ∨
        l = mkLine pick 1 "Agregado para sellar roscas (cinta de teflón).")
    ∨ (∃ t, teflonFetch db = some t ∧
        l = mkLine t 1 "Agregado para sellar roscas (cinta de teflón).")
    ∨ (∃ rep, (bySkuGet candidates "REP-CORTA-001" = some rep ∨
          db.find? (fun p => p.sku = "REP-CORTA-001") = some rep) ∧
        l = mkLine rep 1 "Agregado a tu pedido como repuesto del cortatubo.") := by
  unfold addPath at h
  rcases addCase1_mem h with h | h
  · rcases addTeflonFallback_mem h with h | h
    · rcases addTeflonRule_mem h with h | h
      · rcases addSpareRule_mem h with h | h
        · rcases addReaddCart_mem h with h | h
          · left
            unfold addKeep at h
            have hmf := List.mem_filter.mp h
            exact ⟨hmf.1, hmf.2⟩
          · right; left; exact h
        · rcases h with ⟨pick, hp, he⟩
          right; right; left; exact ⟨pick, hp, Or.inl he⟩
      · rcases h with ⟨pick, hp, he⟩
        right; right; left; exact ⟨pick, hp, Or.inr he⟩
    · right; right; right; left; exact h
  · right; right; right; right; exact h

/-- Every line the ADD path produces has a candidate SKU or one of the two
pinned backfill SKUs. -/
theorem addPath_candOrPinned {q : String} {candidates db : List Product}
    {cm : List (String × Int)} {b : List Line} {l : Line}
    (h : l ∈ addPath q candidates db cm b) :
    candHas candidates l.sku = true ∨ l.sku = "PTF-12" ∨ l.sku = "REP-CORTA-001" := by
  rcases addPath_mem h with ⟨_, hc⟩ | ⟨p, _, src, hsrc, he⟩ | ⟨pick, hp, he⟩ |
    ⟨t, ht, he⟩ | ⟨rep, hr, he⟩
  · exact Or.inl hc
  · left
    rw [he, mkLine_sku]
    exact candHas_of_mem (bySkuGet_props hsrc).2
  · left
    rcases he with he | he <;> rw [he, mkLine_sku] <;> exact candHas_of_mem hp
  · right; left
    rw [he, mkLine_sku]
    exact (teflonFetch_props ht).2
  · right; right
    rw [he, mkLine_sku]
    rcases hr with hr | hr
    · exact (bySkuGet_props hr).1
    · simpa using List.find?_some hr

/-- Every line the ADD path produces has quantity at least 1, provided the
incoming lines and cart-map values do. -/
theorem addPath_qty_pos {q : String} {candidates db : List Product}
    {cm : List (String × Int)} {b : List Line} {l : Line}
    (hcm : ∀ p ∈ cm, 1 ≤ p.2) (hb : ∀ l' ∈ b, 1 ≤ l'.qty.getD 0)
    (h : l ∈ addPath q candidates db cm b) : 1 ≤ l.qty.getD 0 := by
  rcases addPath_mem h with ⟨hm, _⟩ | ⟨p, hp, src, _, he⟩ | ⟨pick, _, he⟩ |
    ⟨t, _, he⟩ | ⟨rep, _, he⟩
  · exact hb l hm
  · rw [he]; simpa [mkLine] using hcm p hp
  · rcases he with he | he <;> simp [he, mkLine]
  · simp [he, mkLine]
  · simp [he, mkLine]

/-- The ADD path preserves SKU uniqueness of the basket. -/
theorem addPath_nodup {q : String} {candidates db : List Product}
    {cm : List (String × Int)} {b : List Line}
    (hb : (b.map (fun l => l.sku)).Nodup) :
    ((addPath q candidates db cm b).map (fun l => l.sku)).Nodup := by
  unfold addPath
  have h0 : ((addKeep candidates b).map (fun l => l.sku)).Nodup :=
    List.Sublist.nodup (List.Sublist.map _ (List.filter_sublist _)) hb
  have h1 : ((addReaddCart candidates cm (addKeep candidates b)).map
      (fun l => l.sku)).Nodup := by
    apply foldl_nodup_guard ?_ cm _ h0
    intro b' p
    rcases readdCartStep_shape candidates "Conservado de tu selección previa." b' p with
      he | ⟨src, hsrc, hg, he⟩
    · exact Or.inl he
    · refine Or.inr ⟨_, he, ?_⟩
      intro l' hl' hcon
      exact any_sku_false hg l' hl'
        (by rw [hcon, mkLine_sku]; exact (bySkuGet_props hsrc).1)
  have hpush : ∀ (pred : Product → Bool) (why : String) (ens : List Line),
      (ens.map (fun l => l.sku)).Nodup →
      ((pushIf candidates pred why ens).map (fun l => l.sku)).Nodup := by
    intro pred why ens hn
    rcases pushIf_shape candidates pred why ens with he | ⟨pick, _, hg, he⟩
    · rw [he]; exact hn
    · rw [he, List.map_append, List.nodup_append]
      refine ⟨hn, by simp, ?_⟩
      intro a ha hmem
      simp only [List.map_cons, List.map_nil, List.mem_singleton] at hmem
      rcases List.mem_map.mp ha with ⟨l', hl', hle⟩
      exact any_sku_false hg l' hl' (by rw [hle, hmem, mkLine_sku])
  have h2 : ((addSpareRule q candidates (addReaddCart candidates cm
      (addKeep candidates b))).map (fun l => l.sku)).Nodup := by
    unfold addSpareRule
    split
    · exact hpush _ _ _ h1
    · exact h1
  have h3 : ((addTeflonRule q candidates (addSpareRule q candidates
      (addReaddCart candidates cm (addKeep candidates b)))).map
      (fun l => l.sku)).Nodup := by
    unfold addTeflonRule
    split
    · exact hpush _ _ _ h2
    · exact h2
  have h4 : ∀ (b' : List Line), (b'.map (fun l => l.sku)).Nodup →
      ((addTeflonFallback q db b').map (fun l => l.sku)).Nodup := by
    intro b' hn
    unfold addTeflonFallback
    split
    · split
      · split
        · exact hn
        · rw [List.map_append, List.nodup_append]
          refine ⟨hn, by simp, ?_⟩
          intro a ha hmem
          simp only [List.map_cons, List.map_nil, List.mem_singleton] at hmem
          rcases List.mem_map.mp ha with ⟨l', hl', hle⟩
          rename_i hg
          rw [Bool.not_eq_true] at hg
          exact any_sku_false hg l' hl' (by rw [hle, hmem, mkLine_sku])
      · exact hn
    · exact hn
  have h5 : ∀ (b' : List Line), (b'.map (fun l => l.sku)).Nodup →
      ((addCase1 q candidates db cm b').map (fun l => l.sku)).Nodup := by
    intro b' hn
    unfold addCase1
    split
    · rename_i hcond
      have hg : b'.any (fun x => x.sku = "REP-CORTA-001") = false := by
        simp only [Bool.and_eq_true, Bool.not_eq_true'] at hcond
        exact hcond.2
      split
      · rename_i rep hrep
        rw [List.map_append, List.nodup_append]
        refine ⟨hn, by simp, ?_⟩
        intro a ha hmem
        simp only [List.map_cons, List.map_nil, List.mem_singleton] at hmem
        rcases List.mem_map.mp ha with ⟨l', hl', hle⟩
        exact any_sku_false hg l' hl'
          (by rw [hle, hmem, mkLine_sku, (bySkuGet_props hrep).1])
      · split
        · rename_i rep hrep
          rw [List.map_append, List.nodup_append]
          refine ⟨hn, by simp, ?_⟩
          intro a ha hmem
          simp only [List.map_cons, List.map_nil, List.mem_singleton] at hmem
          rcases List.mem_map.mp ha with ⟨l', hl', hle⟩
          have hsku : rep.sku = "REP-CORTA-001" := by
            simpa using List.find?_some hrep
          exact any_sku_false hg l' hl' (by rw [hle, hmem, mkLine_sku, hsku])
        · exact hn
    · exact hn
  exact h5 _ (h4 _ h3)

/-! ### Cart-quantity preservation through the ADD path -/

theorem readdFold_mono {candidates : List Product} {why : String} :
    ∀ (xs : List (String × Int)) (b : List Line) (l : Line), l ∈ b →
      l ∈ xs.foldl (readdCartStep candidates why) b := by
  refine foldl_append_mono ?_
  intro b' p
  rcases readdCartStep_shape candidates why b' p with he | ⟨src, _, _, he⟩
  · exact Or.inl he
  · exact Or.inr ⟨_, he⟩

theorem foldl_readd_cover {candidates : List Product} {why : String} :
    ∀ (xs : List (String × Int)) (b : List Line) (p : String × Int),
      p ∈ xs → candHas candidates p.1 = true →
      ∃ l ∈ xs.foldl (readdCartStep candidates why) b, l.sku = p.1 := by
  intro xs
  induction xs with
  | nil => intro b p h _; simp at h
  | cons x t ih =>
    intro b p hp hc
    rw [List.foldl_cons]
    rcases List.mem_cons.mp hp with h1 | h1
    · subst h1
      by_cases hg : b.any (fun l => l.sku = p.1) = true
      · rcases List.any_eq_true.mp hg with ⟨l, hl, hsk⟩
        simp only [decide_eq_true_eq] at hsk
        refine ⟨l, ?_, hsk⟩
        apply readdFold_mono
        rcases readdCartStep_shape candidates why b p with he | ⟨src, _, _, he⟩
        · rw [he]; exact hl
        · rw [he]; exact List.mem_append_left _ hl
      · rw [Bool.not_eq_true] at hg
        rcases bySkuGet_of_candHas hc with ⟨src, hsrc, hsku, _⟩
        have he : readdCartStep candidates why b p = b ++ [mkLine src p.2 why] := by
          unfold readdCartStep
          rw [hg, hc, hsrc]
          simp
        refine ⟨mkLine src p.2 why, ?_, by rw [mkLine_sku]; exact hsku⟩
        apply readdFold_mono
        rw [he]
        exact List.mem_append_right _ (List.mem_singleton.mpr rfl)
    · exact ih _ p h1 hc

theorem addReaddCart_cover {candidates : List Product} {cm : List (String × Int)}
    {b : List Line} {s : String} (hs : (mapGet cm s).isSome = true)
    (hc : candHas candidates s = true) :
    ∃ l ∈ addReaddCart candidates cm b, l.sku = s := by
  obtain ⟨v, hv⟩ := Option.isSome_iff_exists.mp hs
  exact foldl_readd_cover cm b (s, v) (mapGet_some_mem hv) hc

theorem pushIf_cartOK {candidates : List Product} {pred : Product → Bool}
    {why : String} {ens : List Line} {cm : List (String × Int)}
    (hcov : ∀ s, (mapGet cm s).isSome = true → candHas candidates s = true →
      ∃ l ∈ ens, l.sku = s)
    (hok : ∀ l ∈ ens, ∀ v, mapGet cm l.sku = some v → l.qty = some v) :
    ∀ l ∈ pushIf candidates pred why ens, ∀ v, mapGet cm l.sku = some v →
      l.qty = some v := by
  intro l hl v hv
  rcases pushIf_shape candidates pred why ens with he | ⟨pick, hf, hg, he⟩
  · rw [he] at hl; exact hok l hl v hv
  · rw [he] at hl
    rcases List.mem_append.mp hl with hl' | hl'
    · exact hok l hl' v hv
    · simp only [List.mem_singleton] at hl'
      exfalso
      have hsome : (mapGet cm pick.sku).isSome = true := by
        rw [hl', mkLine_sku] at hv
        rw [hv]; rfl
      have hc : candHas candidates pick.sku = true :=
        candHas_of_mem (List.mem_of_find?_eq_some hf)
      rcases hcov _ hsome hc with ⟨l', hl'', hsk⟩
      exact any_sku_false hg l' hl'' hsk

/-- Through the whole ADD path, any surviving or appended line whose SKU the
cart map knows carries exactly the cart-map quantity. The coherence
hypothesis hdb reflects the candidate-set construction: every cart SKU
present in the catalog is in the candidate set. -/
theorem addPath_cartOK {q : String} {candidates db : List Product}
    {cm : List (String × Int)} {b : List Line}
    (hn : (cm.map (fun p => p.1)).Nodup)
    (hok : ∀ l ∈ b, ∀ v, mapGet cm l.sku = some v → l.qty = some v)
    (hdb : ∀ s, (mapGet cm s).isSome = true →
      ∀ p ∈ db, p.sku = s → candHas candidates s = true) :
    ∀ l ∈ addPath q candidates db cm b, ∀ v, mapGet cm l.sku = some v →
      l.qty = some v := by
  unfold addPath
  set k0 := addKeep candidates b with hk0
  clear_value k0
  have ok0 : ∀ l ∈ k0, ∀ v, mapGet cm l.sku = some v → l.qty = some v := by
    intro l hl
    rw [hk0] at hl
    unfold addKeep at hl
    exact hok l (List.mem_filter.mp hl).1
  set k1 := addReaddCart candidates cm k0 with hk1
  clear_value k1
  have ok1 : ∀ l ∈ k1, ∀ v, mapGet cm l.sku = some v → l.qty = some v := by
    intro l hl v hv
    rw [hk1] at hl
    rcases addReaddCart_mem hl with hl' | ⟨p, hp, src, hsrc, he⟩
    · exact ok0 l hl' v hv
    · have hsku : l.sku = p.1 := by rw [he, mkLine_sku]; exact (bySkuGet_props hsrc).1
      have : mapGet cm p.1 = some p.2 := by
        have : p = (p.1, p.2) := rfl
        exact mapGet_eq_some_of_mem_nodup hn (this ▸ hp)
      rw [hsku, this] at hv
      cases hv
      rw [he, mkLine_qty]
  have cov1 : ∀ s, (mapGet cm s).isSome = true → candHas candidates s = true →
      ∃ l ∈ k1, l.sku = s := by
    intro s hs hc
    rw [hk1]
    exact addReaddCart_cover hs hc
  set k2 := addSpareRule q candidates k1 with hk2
  clear_value k2
  have ok2 : ∀ l ∈ k2, ∀ v, mapGet cm l.sku = some v → l.qty = some v := by
    rw [hk2]
    unfold addSpareRule
    split
    · exact pushIf_cartOK cov1 ok1
    · exact ok1
  have cov2 : ∀ s, (mapGet cm s).isSome = true → candHas candidates s = true →
      ∃ l ∈ k2, l.sku = s := by
    intro s hs hc
    rcases cov1 s hs hc with ⟨l, hl, hsk⟩
    refine ⟨l, ?_, hsk⟩
    rw [hk2]
    exact addSpareRule_mono hl
  set k3 := addTeflonRule q candidates k2 with hk3
  clear_value k3
  have ok3 : ∀ l ∈ k3, ∀ v, mapGet cm l.sku = some v → l.qty = some v := by
    rw [hk3]
    unfold addTeflonRule
    split
    · exact pushIf_cartOK cov2 ok2
    · exact ok2
  have cov3 : ∀ s, (mapGet cm s).isSome = true → candHas candidates s = true →
      ∃ l ∈ k3, l.sku = s := by
    intro s hs hc
    rcases cov2 s hs hc with ⟨l, hl, hsk⟩
    refine ⟨l, ?_, hsk⟩
    rw [hk3]
    exact addTeflonRule_mono hl
  have cov3' : ∀ s, (mapGet cm s).isSome = true → candHas candidates s = true →
      ∃ l ∈ addTeflonFallback q db k3, l.sku = s := by
    intro s hs hc
    rcases cov3 s hs hc with ⟨l, hl, hsk⟩
    exact ⟨l, addTeflonFallback_mono hl, hsk⟩
  have ok4 : ∀ l ∈ addTeflonFallback q db k3, ∀ v, mapGet cm l.sku = some v →
      l.qty = some v := by
    intro l hl v hv
    unfold addTeflonFallback at hl
    by_cases hcond : (ciAny teflonNeedles q && !(k3.any lineTeflonish)) = true
    · rw [if_pos hcond] at hl
      cases hmatch : teflonFetch db with
      | none => rw [hmatch] at hl; dsimp only at hl; exact ok3 l hl v hv
      | some t =>
        rw [hmatch] at hl
        dsimp only at hl
        by_cases hany : (k3.any fun x => x.sku = t.sku) = true
        · rw [if_pos hany] at hl; exact ok3 l hl v hv
        · rw [if_neg hany] at hl
          rcases List.mem_append.mp hl with hl' | hl'
          · exact ok3 l hl' v hv
          · simp only [List.mem_singleton] at hl'
            exfalso
            have hprops := teflonFetch_props hmatch
            have hsome : (mapGet cm t.sku).isSome = true := by
              rw [hl', mkLine_sku] at hv
              rw [hv]; rfl
            have hc : candHas candidates t.sku = true := hdb t.sku hsome t hprops.1 rfl
            rcases cov3 _ hsome hc with ⟨l', hl'', hsk⟩
            rw [Bool.not_eq_true] at hany
            exact any_sku_false hany l' hl'' hsk
    · rw [if_neg hcond] at hl
      exact ok3 l hl v hv
  have ok5 : ∀ l ∈ addCase1 q candidates db cm (addTeflonFallback q db k3), ∀ v,
      mapGet cm l.sku = some v → l.qty = some v := by
    intro l hl v hv
    unfold addCase1 at hl
    by_cases hcond : (ciAny spareNeedles q && (mapGet cm "CORTA-COBRE-001").isSome &&
        !((addTeflonFallback q db k3).any (fun x => x.sku = "REP-CORTA-001"))) = true
    · rw [if_pos hcond] at hl
      have hg : (addTeflonFallback q db k3).any
          (fun x => x.sku = "REP-CORTA-001") = false := by
        simp only [Bool.and_eq_true, Bool.not_eq_true'] at hcond
        exact hcond.2
      cases hby : bySkuGet candidates "REP-CORTA-001" with
      | some rep =>
        rw [hby] at hl
        dsimp only at hl
        rcases List.mem_append.mp hl with hl' | hl'
        · exact ok4 l hl' v hv
        · simp only [List.mem_singleton] at hl'
          exfalso
          have hprops := bySkuGet_props hby
          have hlsku : l.sku = "REP-CORTA-001" := by
            rw [hl', mkLine_sku, hprops.1]
          have hsome : (mapGet cm "REP-CORTA-001").isSome = true := by
            rw [← hlsku, hv]; rfl
          have hc : candHas candidates "REP-CORTA-001" = true :=
            hprops.1 ▸ candHas_of_mem hprops.2
          rcases cov3' _ hsome hc with ⟨l', hl'', hsk⟩
          exact any_sku_false hg l' hl'' hsk
      | none =>
        rw [hby] at hl
        dsimp only at hl
        cases hdbf : db.find? (fun p => p.sku = "REP-CORTA-001") with
        | some rep =>
          rw [hdbf] at hl
          dsimp only at hl
          rcases List.mem_append.mp hl with hl' | hl'
          · exact ok4 l hl' v hv
          · simp only [List.mem_singleton] at hl'
            exfalso
            have hrsku : rep.sku = "REP-CORTA-001" := by
              simpa using List.find?_some hdbf
            have hlsku : l.sku = "REP-CORTA-001" := by
              rw [hl', mkLine_sku, hrsku]
            have hsome : (mapGet cm "REP-CORTA-001").isSome = true := by
              rw [← hlsku, hv]; rfl
            have hc : candHas candidates "REP-CORTA-001" = true :=
              hdb _ hsome rep (List.mem_of_find?_eq_some hdbf) hrsku
            rcases bySkuGet_of_candHas hc with ⟨r, hr, _, _⟩
            rw [hby] at hr
            cases hr
        | none =>
          rw [hdbf] at hl
          dsimp only at hl
          exact ok4 l hl v hv
    · rw [if_neg hcond] at hl
      exact ok4 l hl v hv
  intro l hl
  exact ok5 l hl

/-! ### Force-replace, quantity loop, recovery and normal re-add lemmas -/

theorem forceReplaceRebuild_mem {q qNorm : String} {candidates : List Product}
    {b1 : List Line} {l : Line} (h : l ∈ forceReplaceRebuild q qNorm candidates b1) :
    l ∈ b1 ∨ ∃ src ∈ pickByKeywords q qNorm candidates 3,
      l = mkLine src 1 "Seleccionado según tu preferencia." := by
  unfold forceReplaceRebuild at h
  split at h
  · rcases List.mem_map.mp h with ⟨src, hs, he⟩
    exact Or.inr ⟨src, hs, he.symm⟩
  · split at h
    · split at h
      · have hd := foldl_append_mem
          (P := fun l src => l = mkLine src 1 "Seleccionado según tu preferencia.")
          ?_ _ _ _ h
        · rcases hd with hd | hd
          · exact Or.inl hd
          · exact Or.inr hd
        · intro b' src
          rcases pickAppendStep_shape b' src with he | ⟨_, he⟩
          · exact Or.inl he
          · exact Or.inr ⟨_, he, rfl⟩
      · exact Or.inl h
    · exact Or.inl h

theorem forceReplaceCore_mem {q qNorm : String} {candidates : List Product}
    {cm : List (String × Int)} {basket : List Line} {l : Line}
    (h : l ∈ forceReplaceCore q qNorm candidates cm basket) :
    (l ∈ basket ∧ (mapGet cm l.sku).isNone = true) ∨
    ∃ src ∈ pickByKeywords q qNorm candidates 3,
      l = mkLine src 1 "Seleccionado según tu preferencia." := by
  unfold forceReplaceCore at h
  rcases forceReplaceRebuild_mem h with h' | h'
  · rw [List.mem_filter] at h'
    exact Or.inl ⟨h'.1, by simpa using h'.2⟩
  · exact Or.inr h'

theorem forceReplaceRebuild_nodup {q qNorm : String} {candidates : List Product}
    {b1 : List Line} (hb1 : (b1.map (fun l => l.sku)).Nodup)
    (hc : (candidates.map (fun p => p.sku)).Nodup) :
    ((forceReplaceRebuild q qNorm candidates b1).map (fun l => l.sku)).Nodup := by
  unfold forceReplaceRebuild
  split
  · rw [List.map_map]
    have he : ((fun l : Line => l.sku) ∘
        fun src => mkLine src 1 "Seleccionado según tu preferencia.") =
        fun p : Product => p.sku := rfl
    rw [he]
    exact pickByKeywords_nodup_skus hc
  · split
    · split
      · refine foldl_nodup_guard ?_ _ _ hb1
        intro b' src
        rcases pickAppendStep_shape b' src with he | ⟨hg, he⟩
        · exact Or.inl he
        · exact Or.inr ⟨_, he, fun l' hl' hcon =>
            any_sku_false hg l' hl' (by rw [hcon, mkLine_sku])⟩
      · exact hb1
    · exact hb1

theorem forceReplaceCore_nodup {q qNorm : String} {candidates : List Product}
    {cm : List (String × Int)} {basket : List Line}
    (hb : (basket.map (fun l => l.sku)).Nodup)
    (hc : (candidates.map (fun p => p.sku)).Nodup) :
    ((forceReplaceCore q qNorm candidates cm basket).map (fun l => l.sku)).Nodup := by
  unfold forceReplaceCore
  exact forceReplaceRebuild_nodup
    (List.Sublist.nodup (List.Sublist.map _ (List.filter_sublist _)) hb) hc

theorem forceReplaceRebuild_nil {q qNorm : String} {candidates : List Product}
    {b1 : List Line} (h : forceReplaceRebuild q qNorm candidates b1 = []) :
    pickByKeywords q qNorm candidates 3 = [] := by
  unfold forceReplaceRebuild at h
  split at h
  · exact List.map_eq_nil_iff.mp h
  · rename_i hlen
    exfalso
    have hne : b1 ≠ [] := by
      intro hnil
      rw [hnil] at hlen
      exact hlen rfl
    rcases List.exists_mem_of_ne_nil _ hne with ⟨x, hx⟩
    have hmono : ∀ (xs : List Product) (b : List Line) (l : Line), l ∈ b →
        l ∈ xs.foldl pickAppendStep b := by
      refine foldl_append_mono ?_
      intro b' src
      rcases pickAppendStep_shape b' src with he | ⟨_, he⟩
      · exact Or.inl he
      · exact Or.inr ⟨_, he⟩
    split at h
    · split at h
      · have := hmono (pickByKeywords q qNorm candidates 3) _ x hx
        rw [h] at this
        simp at this
      · rw [h] at hx
        simp at hx
    · rw [h] at hx
      simp at hx

theorem forceReplaceCore_nil {q qNorm : String} {candidates : List Product}
    {cm : List (String × Int)} {basket : List Line}
    (h : forceReplaceCore q qNorm candidates cm basket = []) :
    pickByKeywords q qNorm candidates 3 = [] := by
  unfold forceReplaceCore at h
  exact forceReplaceRebuild_nil h

/-- The map applied by the closing cart-quantity loop. -/
theorem reassertCartQty_def (cm : List (String × Int)) (b : List Line) :
    reassertCartQty cm b = b.map (fun it =>
      match mapGet cm it.sku with
      | some cq => if cq = 0 then it else { it with qty := some (max 1 cq) }
      | none => it) := rfl

theorem reassertCartQty_skus (cm : List (String × Int)) (b : List Line) :
    (reassertCartQty cm b).map (fun l => l.sku) = b.map (fun l => l.sku) := by
  rw [reassertCartQty_def, List.map_map]
  apply List.map_congr_left
  intro l _
  simp only [Function.comp]
  cases hmg : mapGet cm l.sku with
  | none => rfl
  | some cq =>
    by_cases hz : cq = 0
    · simp [hz]
    · simp [hz]

theorem reassertCartQty_cartOK {cm : List (String × Int)} {b : List Line}
    (hpos : ∀ s v, mapGet cm s = some v → 1 ≤ v) :
    ∀ l ∈ reassertCartQty cm b, ∀ v, mapGet cm l.sku = some v → l.qty = some v := by
  intro l hl v hv
  rw [reassertCartQty_def] at hl
  rcases List.mem_map.mp hl with ⟨l0, hl0, he⟩
  cases hmg : mapGet cm l0.sku with
  | none =>
    rw [hmg] at he
    simp only at he
    rw [← he] at hv
    rw [hmg] at hv
    cases hv
  | some cq =>
    have hcq : 1 ≤ cq := hpos _ _ hmg
    have hz : ¬ cq = 0 := by omega
    rw [hmg] at he
    simp only [hz, if_false] at he
    have hsku : l.sku = l0.sku := by rw [← he]
    rw [hsku, hmg] at hv
    cases hv
    rw [← he]
    simp [max_eq_right hcq]

theorem reassertCartQty_qty_pos {cm : List (String × Int)} {b : List Line}
    (hb : ∀ l ∈ b, 1 ≤ l.qty.getD 0) :
    ∀ l ∈ reassertCartQty cm b, 1 ≤ l.qty.getD 0 := by
  intro l hl
  rw [reassertCartQty_def] at hl
  rcases List.mem_map.mp hl with ⟨l0, hl0, he⟩
  cases hmg : mapGet cm l0.sku with
  | none =>
    rw [hmg] at he
    simp only at he
    rw [← he]
    exact hb l0 hl0
  | some cq =>
    by_cases hz : cq = 0
    · rw [hmg] at he
      simp only [hz, if_true] at he
      rw [← he]
      exact hb l0 hl0
    · rw [hmg] at he
      simp only [hz, if_false] at he
      rw [← he]
      simp only [Option.getD_some]
      exact le_max_left _ _

theorem reassertCartQty_nil {cm : List (String × Int)} {b : List Line}
    (h : reassertCartQty cm b = []) : b = [] := by
  rw [reassertCartQty_def] at h
  exact List.map_eq_nil_iff.mp h

/-- Branch trichotomy of the empty-basket handling. -/
theorem emptyBasketRecovery_fst (q qNorm : String) (candidates : List Product)
    (cm : List (String × Int)) (r a w : Bool) (basket : List Line)
    (confirm : String) :
    (emptyBasketRecovery q qNorm candidates cm r a w basket confirm).1 = basket ∨
    (basket = [] ∧ r = true ∧ a = false ∧
      (emptyBasketRecovery q qNorm candidates cm r a w basket confirm).1 =
        (pickByKeywords q qNorm candidates 3).map
          (fun src => mkLine src 1 "Seleccionado según tu preferencia.")) ∨
    (basket = [] ∧
      (emptyBasketRecovery q qNorm candidates cm r a w basket confirm).1 =
        cm.foldl (restoreCartStep candidates) []) := by
  unfold emptyBasketRecovery
  by_cases h0 : basket.length = 0
  · have hb : basket = [] := List.length_eq_zero.mp h0
    by_cases h1 : (r && !a) = true
    · right; left
      simp only [Bool.and_eq_true, Bool.not_eq_true'] at h1
      refine ⟨hb, h1.1, h1.2, ?_⟩
      simp [h0, h1.1, h1.2]
    · by_cases h2 : (!w && decide (cm.length > 0)) = true
      · right; right
        refine ⟨hb, ?_⟩
        simp only [Bool.and_eq_true] at h2
        have hr : (r && !a) = false := by
          rw [Bool.not_eq_true] at h1; exact h1
        simp only [h0, if_true, if_pos rfl]
        rcases Bool.and_eq_false_iff.mp hr with hr' | hr'
        · simp [hr', h2.1, h2.2]
        · have : a = true := by
            cases a
            · simp at hr'
            · rfl
          simp [this, hr', h2.1, h2.2, Bool.not_eq_true' .. ]
      · left
        simp only [Bool.and_eq_true, not_and] at h2
        by_cases hra : (r && !a) = true
        · exact absurd hra h1
        · rw [Bool.not_eq_true] at hra
          rcases Bool.and_eq_false_iff.mp hra with hr' | hr'
          · by_cases hw : (!w) = true
            · have hcml : ¬ decide (cm.length > 0) = true := h2 hw
              simp [h0, hr', hw, hcml]
            · rw [Bool.not_eq_true] at hw
              simp [h0, hr', hw]
          · by_cases hw : (!w) = true
            · have hcml : ¬ decide (cm.length > 0) = true := h2 hw
              simp [h0, hr', hw, hcml]
            · rw [Bool.not_eq_true] at hw
              simp [h0, hr', hw]
  · left
    simp [h0]

/-! ### Generic re-add fold properties, restore fold, nudge frame -/

theorem readdFold_mem {candidates : List Product} {why : String}
    {xs : List (String × Int)} {b : List Line} {l : Line}
    (h : l ∈ xs.foldl (readdCartStep candidates why) b) :
    l ∈ b ∨ ∃ p ∈ xs, ∃ src, bySkuGet candidates p.1 = some src ∧
      l = mkLine src p.2 why := by
  refine foldl_append_mem
    (P := fun l p => ∃ src, bySkuGet candidates p.1 = some src ∧
      l = mkLine src p.2 why) ?_ xs b l h
  intro b' p
  rcases readdCartStep_shape candidates why b' p with he | ⟨src, hsrc, _, he⟩
  · exact Or.inl he
  · exact Or.inr ⟨mkLine src p.2 _, he, src, hsrc, rfl⟩

theorem readdFold_cartOK {candidates : List Product} {why : String}
    {cm : List (String × Int)} {b : List Line}
    (hn : (cm.map (fun p => p.1)).Nodup)
    (hok : ∀ l ∈ b, ∀ v, mapGet cm l.sku = some v → l.qty = some v) :
    ∀ l ∈ cm.foldl (readdCartStep candidates why) b, ∀ v,
      mapGet cm l.sku = some v → l.qty = some v := by
  intro l hl v hv
  rcases readdFold_mem hl with hl' | ⟨p, hp, src, hsrc, he⟩
  · exact hok l hl' v hv
  · have hsku : l.sku = p.1 := by rw [he, mkLine_sku]; exact (bySkuGet_props hsrc).1
    have hget : mapGet cm p.1 = some p.2 := by
      have hp' : (p.1, p.2) ∈ cm := by
        have : p = (p.1, p.2) := rfl
        exact this ▸ hp
      exact mapGet_eq_some_of_mem_nodup hn hp'
    rw [hsku, hget] at hv
    cases hv
    rw [he, mkLine_qty]

theorem readdFold_nodup {candidates : List Product} {why : String}
    {xs : List (String × Int)} {b : List Line}
    (hb : (b.map (fun l => l.sku)).Nodup) :
    ((xs.foldl (readdCartStep candidates why) b).map (fun l => l.sku)).Nodup := by
  refine foldl_nodup_guard ?_ xs b hb
  intro b' p
  rcases readdCartStep_shape candidates why b' p with he | ⟨src, hsrc, hg, he⟩
  · exact Or.inl he
  · exact Or.inr ⟨_, he, fun l' hl' hcon =>
      any_sku_false hg l' hl' (by rw [hcon, mkLine_sku]; exact (bySkuGet_props hsrc).1)⟩

theorem readdFold_qty_pos {candidates : List Product} {why : String}
    {xs : List (String × Int)} {b : List Line}
    (hxs : ∀ p ∈ xs, 1 ≤ p.2) (hb : ∀ l ∈ b, 1 ≤ l.qty.getD 0) :
    ∀ l ∈ xs.foldl (readdCartStep candidates why) b, 1 ≤ l.qty.getD 0 := by
  intro l hl
  rcases readdFold_mem hl with hl' | ⟨p, hp, src, _, he⟩
  · exact hb l hl'
  · rw [he]
    simpa [mkLine] using hxs p hp

theorem readdFold_candHas {candidates : List Product} {why : String}
    {xs : List (String × Int)} {b : List Line}
    (hb : ∀ l ∈ b, candHas candidates l.sku = true) :
    ∀ l ∈ xs.foldl (readdCartStep candidates why) b,
      candHas candidates l.sku = true := by
  intro l hl
  rcases readdFold_mem hl with hl' | ⟨p, hp, src, hsrc, he⟩
  · exact hb l hl'
  · rw [he, mkLine_sku]
    exact candHas_of_mem (bySkuGet_props hsrc).2

theorem restoreFold_mem {candidates : List Product}
    {xs : List (String × Int)} {b : List Line} {l : Line}
    (h : l ∈ xs.foldl (restoreCartStep candidates) b) :
    l ∈ b ∨ ∃ p ∈ xs, ∃ src, bySkuGet candidates p.1 = some src ∧
      l = mkLine src p.2 "Conservado de tu selección previa." := by
  refine foldl_append_mem
    (P := fun l p => ∃ src, bySkuGet candidates p.1 = some src ∧
      l = mkLine src p.2 "Conservado de tu selección previa.") ?_ xs b l h
  intro b' p
  rcases restoreCartStep_shape candidates b' p with he | ⟨src, hsrc, he⟩
  · exact Or.inl he
  · exact Or.inr ⟨mkLine src p.2 _, he, src, hsrc, rfl⟩

theorem restoreFold_nodup {candidates : List Product} {cm : List (String × Int)}
    (hn : (cm.map (fun p => p.1)).Nodup) :
    ((cm.foldl (restoreCartStep candidates) []).map (fun l => l.sku)).Nodup := by
  refine foldl_nodup_keys (fun p => p.1) ?_ cm [] (by simpa using hn)
  intro b' p
  rcases restoreCartStep_shape candidates b' p with he | ⟨src, hsrc, he⟩
  · exact Or.inl he
  · exact Or.inr ⟨_, he, by rw [mkLine_sku]; exact (bySkuGet_props hsrc).1⟩

theorem restoreFold_cartOK {candidates : List Product} {cm : List (String × Int)}
    (hn : (cm.map (fun p => p.1)).Nodup) :
    ∀ l ∈ cm.foldl (restoreCartStep candidates) [], ∀ v,
      mapGet cm l.sku = some v → l.qty = some v := by
  intro l hl v hv
  rcases restoreFold_mem hl with hl' | ⟨p, hp, src, hsrc, he⟩
  · simp at hl'
  · have hsku : l.sku = p.1 := by rw [he, mkLine_sku]; exact (bySkuGet_props hsrc).1
    have hget : mapGet cm p.1 = some p.2 := by
      have hp' : (p.1, p.2) ∈ cm := by
        have : p = (p.1, p.2) := rfl
        exact this ▸ hp
      exact mapGet_eq_some_of_mem_nodup hn hp'
    rw [hsku, hget] at hv
    cases hv
    rw [he, mkLine_qty]

theorem normalReadd_mem {candidates : List Product} {cm : List (String × Int)}
    {r w : Bool} {basket : List Line} {l : Line}
    (h : l ∈ normalReadd candidates cm r w basket) :
    l ∈ basket ∨ ∃ p ∈ cm, ∃ src, bySkuGet candidates p.1 = some src ∧
      l = mkLine src p.2 "Pedido previo del cliente." := by
  unfold normalReadd at h
  split at h
  · exact readdFold_mem h
  · exact Or.inl h

theorem normalReadd_mono {candidates : List Product} {cm : List (String × Int)}
    {r w : Bool} {basket : List Line} {l : Line} (h : l ∈ basket) :
    l ∈ normalReadd candidates cm r w basket := by
  unfold normalReadd
  split
  · exact readdFold_mono cm basket l h
  · exact h

theorem normalReadd_nodup {candidates : List Product} {cm : List (String × Int)}
    {r w : Bool} {basket : List Line}
    (hb : (basket.map (fun l => l.sku)).Nodup) :
    ((normalReadd candidates cm r w basket).map (fun l => l.sku)).Nodup := by
  unfold normalReadd
  split
  · exact readdFold_nodup hb
  · exact hb

theorem normalReadd_cartOK {candidates : List Product} {cm : List (String × Int)}
    {r w : Bool} {basket : List Line}
    (hn : (cm.map (fun p => p.1)).Nodup)
    (hok : ∀ l ∈ basket, ∀ v, mapGet cm l.sku = some v → l.qty = some v) :
    ∀ l ∈ normalReadd candidates cm r w basket, ∀ v,
      mapGet cm l.sku = some v → l.qty = some v := by
  unfold normalReadd
  split
  · exact readdFold_cartOK hn hok
  · exact hok

theorem normalReadd_qty_pos {candidates : List Product} {cm : List (String × Int)}
    {r w : Bool} {basket : List Line}
    (hcm : ∀ p ∈ cm, 1 ≤ p.2) (hb : ∀ l ∈ basket, 1 ≤ l.qty.getD 0) :
    ∀ l ∈ normalReadd candidates cm r w basket, 1 ≤ l.qty.getD 0 := by
  unfold normalReadd
  split
  · exact readdFold_qty_pos hcm hb
  · exact hb

/-- C9 core: the nudge pass never touches basket, upsell, title or steps. -/
theorem nudgePass_frame (q : String) (db : List Product) (plan : Plan)
    (reply : String) :
    (nudgePass q db plan reply).1.basket = plan.basket ∧
    (nudgePass q db plan reply).1.upsell = plan.upsell ∧
    (nudgePass q db plan reply).1.title = plan.title ∧
    (nudgePass q db plan reply).1.steps = plan.steps := by
  unfold nudgePass
  split
  · cases db.find? (fun p => p.sku = "PVC-CPL-050") with
    | none => exact ⟨rfl, rfl, rfl, rfl⟩
    | some cople =>
      dsimp only
      split
      · split
        · exact ⟨rfl, rfl, rfl, rfl⟩
        · exact ⟨rfl, rfl, rfl, rfl⟩
      · exact ⟨rfl, rfl, rfl, rfl⟩
  · exact ⟨rfl, rfl, rfl, rfl⟩

/-! ### Characterization of the reconciled output -/

theorem reconcileParsed_basket (q : String) (cart : List CartItem)
    (search db : List Product) (parsed : RawProposal) :
    (reconcileParsed q cart search db parsed).plan.basket =
      finalBasket q (buildCandidates search db cart) db (buildCartMap cart) parsed :=
  (nudgePass_frame q db _ _).1

theorem reconcileParsed_upsell (q : String) (cart : List CartItem)
    (search db : List Product) (parsed : RawProposal) :
    (reconcileParsed q cart search db parsed).plan.upsell =
      filterToCandidates (buildCandidates search db cart) parsed.plan.upsell :=
  (nudgePass_frame q db _ _).2.1

theorem reassertLine_sku (cm : List (String × Int)) (it : Line) :
    (reassertLine cm it).sku = it.sku := rfl

theorem validatedBasket_mem {candidates : List Product} {cm : List (String × Int)}
    {parsed : RawProposal} {l : Line} (h : l ∈ validatedBasket candidates cm parsed) :
    ∃ l0 ∈ parsed.plan.basket, candHas candidates l0.sku = true ∧
      l = reassertLine cm l0 := by
  unfold validatedBasket filterToCandidates at h
  rcases List.mem_map.mp h with ⟨l0, hl0, he⟩
  rw [List.mem_filter] at hl0
  exact ⟨l0, hl0.1, hl0.2, he.symm⟩

theorem validatedBasket_candHas {candidates : List Product} {cm : List (String × Int)}
    {parsed : RawProposal} : ∀ l ∈ validatedBasket candidates cm parsed,
      candHas candidates l.sku = true := by
  intro l hl
  rcases validatedBasket_mem hl with ⟨l0, _, hc, he⟩
  rw [he, reassertLine_sku]
  exact hc

theorem validatedBasket_qty_pos {candidates : List Product} {cm : List (String × Int)}
    {parsed : RawProposal} : ∀ l ∈ validatedBasket candidates cm parsed,
      1 ≤ l.qty.getD 0 := by
  intro l hl
  rcases validatedBasket_mem hl with ⟨l0, _, _, he⟩
  rw [he]
  unfold reassertLine
  simp only [Option.getD_some]
  exact le_max_left _ _

theorem validatedBasket_cartOK {candidates : List Product} {cm : List (String × Int)}
    {parsed : RawProposal} (hpos : ∀ s v, mapGet cm s = some v → 1 ≤ v) :
    ∀ l ∈ validatedBasket candidates cm parsed, ∀ v,
      mapGet cm l.sku = some v → l.qty = some v := by
  intro l hl v hv
  rcases validatedBasket_mem hl with ⟨l0, _, _, he⟩
  have hsku : l.sku = l0.sku := by rw [he, reassertLine_sku]
  rw [hsku] at hv
  rw [he]
  unfold reassertLine
  rw [hv]
  have := hpos _ _ hv
  simp [max_eq_right this]

theorem validatedBasket_skus (candidates : List Product) (cm : List (String × Int))
    (parsed : RawProposal) :
    (validatedBasket candidates cm parsed).map (fun l => l.sku) =
      (filterToCandidates candidates parsed.plan.basket).map (fun l => l.sku) := by
  unfold validatedBasket
  rw [List.map_map]
  rfl

theorem reassertCartQty_mem_sku {cm : List (String × Int)} {b : List Line} {l : Line}
    (h : l ∈ reassertCartQty cm b) : ∃ l0 ∈ b, l.sku = l0.sku := by
  rw [reassertCartQty_def] at h
  rcases List.mem_map.mp h with ⟨l0, hl0, he⟩
  refine ⟨l0, hl0, ?_⟩
  rw [← he]
  cases hmg : mapGet cm l0.sku with
  | none => rfl
  | some cq =>
    by_cases hz : cq = 0
    · simp [hz]
    · simp [hz]

/-! ### Final-basket invariants -/

theorem buildCartMap_mem_pos {cart : List CartItem} :
    ∀ p ∈ buildCartMap cart, 1 ≤ p.2 := by
  intro p hp
  rcases foldl_mapSet_mem (fun ci : CartItem => ci.sku) cartQtyVal cart [] _ hp with
    h | ⟨ci, _, he⟩
  · simp at h
  · have : p.2 = cartQtyVal ci := congrArg Prod.snd he
    rw [this]
    exact cartQtyVal_pos ci

theorem basketAfterAdd_candOrPinned {q : String} {candidates db : List Product}
    {cm : List (String × Int)} {parsed : RawProposal} :
    ∀ l ∈ basketAfterAdd q candidates db cm parsed,
      candHas candidates l.sku = true ∨
      (addIntent q = true ∧ (l.sku = "PTF-12" ∨ l.sku = "REP-CORTA-001")) := by
  intro l hl
  unfold basketAfterAdd at hl
  split at hl
  · rename_i hadd
    rcases addPath_candOrPinned hl with h | h
    · exact Or.inl h
    · exact Or.inr ⟨hadd, h⟩
  · exact Or.inl (validatedBasket_candHas l hl)

theorem basketAfterReplace_candOrPinned {q : String} {candidates db : List Product}
    {cm : List (String × Int)} {parsed : RawProposal} :
    ∀ l ∈ basketAfterReplace q candidates db cm parsed,
      candHas candidates l.sku = true ∨
      (addIntent q = true ∧ (l.sku = "PTF-12" ∨ l.sku = "REP-CORTA-001")) := by
  intro l hl
  unfold basketAfterReplace at hl
  split at hl
  · rcases reassertCartQty_mem_sku hl with ⟨l0, hl0, hsku⟩
    rw [hsku]
    rcases forceReplaceCore_mem hl0 with ⟨hb2, _⟩ | ⟨src, hs, he⟩
    · exact basketAfterAdd_candOrPinned l0 hb2
    · rw [he, mkLine_sku]
      exact Or.inl (candHas_of_mem (pickByKeywords_sub hs))
  · exact basketAfterAdd_candOrPinned l hl

theorem finalBasket_candOrPinned {q : String} {candidates db : List Product}
    {cm : List (String × Int)} {parsed : RawProposal} :
    ∀ l ∈ finalBasket q candidates db cm parsed,
      candHas candidates l.sku = true ∨
      (addIntent q = true ∧ (l.sku = "PTF-12" ∨ l.sku = "REP-CORTA-001")) := by
  intro l hl
  unfold finalBasket at hl
  rcases normalReadd_mem hl with hl | ⟨p, _, src, hsrc, he⟩
  · unfold recoveryOf at hl
    rcases emptyBasketRecovery_fst q (normalizeQuery q) candidates cm
      (replaceIntent q) (addIntent q) (removeIntent q)
      (basketAfterReplace q candidates db cm parsed) (confirmAfterAdd q parsed) with
      h1 | ⟨_, _, _, h2⟩ | ⟨_, h3⟩
    · rw [h1] at hl
      exact basketAfterReplace_candOrPinned l hl
    · rw [h2] at hl
      rcases List.mem_map.mp hl with ⟨src, hs, he⟩
      rw [← he, mkLine_sku]
      exact Or.inl (candHas_of_mem (pickByKeywords_sub hs))
    · rw [h3] at hl
      rcases restoreFold_mem hl with h | ⟨p, _, src, hsrc, he⟩
      · simp at h
      · rw [he, mkLine_sku]
        exact Or.inl (candHas_of_mem (bySkuGet_props hsrc).2)
  · rw [he, mkLine_sku]
    exact Or.inl (candHas_of_mem (bySkuGet_props hsrc).2)

theorem basketAfterAdd_qty_pos {q : String} {candidates db : List Product}
    {cm : List (String × Int)} {parsed : RawProposal}
    (hcm : ∀ p ∈ cm, 1 ≤ p.2) :
    ∀ l ∈ basketAfterAdd q candidates db cm parsed, 1 ≤ l.qty.getD 0 := by
  intro l hl
  unfold basketAfterAdd at hl
  split at hl
  · exact addPath_qty_pos hcm validatedBasket_qty_pos hl
  · exact validatedBasket_qty_pos l hl

theorem basketAfterReplace_qty_pos {q : String} {candidates db : List Product}
    {cm : List (String × Int)} {parsed : RawProposal}
    (hcm : ∀ p ∈ cm, 1 ≤ p.2) :
    ∀ l ∈ basketAfterReplace q candidates db cm parsed, 1 ≤ l.qty.getD 0 := by
  intro l hl
  unfold basketAfterReplace at hl
  split at hl
  · refine reassertCartQty_qty_pos ?_ l hl
    intro l0 hl0
    rcases forceReplaceCore_mem hl0 with ⟨hb2, _⟩ | ⟨src, _, he⟩
    · exact basketAfterAdd_qty_pos hcm l0 hb2
    · rw [he]
      simp [mkLine]
  · exact basketAfterAdd_qty_pos hcm l hl

theorem finalBasket_qty_pos {q : String} {candidates db : List Product}
    {cm : List (String × Int)} {parsed : RawProposal}
    (hcm : ∀ p ∈ cm, 1 ≤ p.2) :
    ∀ l ∈ finalBasket q candidates db cm parsed, 1 ≤ l.qty.getD 0 := by
  intro l hl
  unfold finalBasket at hl
  rcases normalReadd_mem hl with hl | ⟨p, hp, src, _, he⟩
  · unfold recoveryOf at hl
    rcases emptyBasketRecovery_fst q (normalizeQuery q) candidates cm
      (replaceIntent q) (addIntent q) (removeIntent q)
      (basketAfterReplace q candidates db cm parsed) (confirmAfterAdd q parsed) with
      h1 | ⟨_, _, _, h2⟩ | ⟨_, h3⟩
    · rw [h1] at hl
      exact basketAfterReplace_qty_pos hcm l hl
    · rw [h2] at hl
      rcases List.mem_map.mp hl with ⟨src, _, he⟩
      rw [← he]
      simp [mkLine]
    · rw [h3] at hl
      rcases restoreFold_mem hl with h | ⟨p, hp, src, _, he⟩
      · simp at h
      · rw [he]
        simpa [mkLine] using hcm p hp
  · rw [he]
    simpa [mkLine] using hcm p hp

theorem basketAfterAdd_nodup {q : String} {candidates db : List Product}
    {cm : List (String × Int)} {parsed : RawProposal}
    (hnd : (parsed.plan.basket.map (fun l => l.sku)).Nodup) :
    ((basketAfterAdd q candidates db cm parsed).map (fun l => l.sku)).Nodup := by
  have hvb : ((validatedBasket candidates cm parsed).map (fun l => l.sku)).Nodup := by
    rw [validatedBasket_skus]
    exact List.Sublist.nodup (List.Sublist.map _ (List.filter_sublist _)) hnd
  unfold basketAfterAdd
  split
  · exact addPath_nodup hvb
  · exact hvb

theorem basketAfterReplace_nodup {q : String} {candidates db : List Product}
    {cm : List (String × Int)} {parsed : RawProposal}
    (hnd : (parsed.plan.basket.map (fun l => l.sku)).Nodup)
    (hc : (candidates.map (fun p => p.sku)).Nodup) :
    ((basketAfterReplace q candidates db cm parsed).map (fun l => l.sku)).Nodup := by
  unfold basketAfterReplace
  split
  · rw [reassertCartQty_skus]
    exact forceReplaceCore_nodup (basketAfterAdd_nodup hnd) hc
  · exact basketAfterAdd_nodup hnd

theorem finalBasket_nodup {q : String} {candidates db : List Product}
    {cm : List (String × Int)} {parsed : RawProposal}
    (hnd : (parsed.plan.basket.map (fun l => l.sku)).Nodup)
    (hc : (candidates.map (fun p => p.sku)).Nodup)
    (hk : (cm.map (fun p => p.1)).Nodup) :
    ((finalBasket q candidates db cm parsed).map (fun l => l.sku)).Nodup := by
  unfold finalBasket
  apply normalReadd_nodup
  unfold recoveryOf
  rcases emptyBasketRecovery_fst q (normalizeQuery q) candidates cm
    (replaceIntent q) (addIntent q) (removeIntent q)
    (basketAfterReplace q candidates db cm parsed) (confirmAfterAdd q parsed) with
    h1 | ⟨_, _, _, h2⟩ | ⟨_, h3⟩
  · rw [h1]
    exact basketAfterReplace_nodup hnd hc
  · rw [h2]
    rw [List.map_map]
    have he : ((fun l : Line => l.sku) ∘
        fun src => mkLine src 1 "Seleccionado según tu preferencia.") =
        fun p : Product => p.sku := rfl
    rw [he]
    exact pickByKeywords_nodup_skus hc
  · rw [h3]
    exact restoreFold_nodup hk

theorem basketAfterReplace_cartOK {q : String} {candidates db : List Product}
    {cm : List (String × Int)} {parsed : RawProposal}
    (hk : (cm.map (fun p => p.1)).Nodup)
    (hpos : ∀ s v, mapGet cm s = some v → 1 ≤ v)
    (hdb : ∀ s, (mapGet cm s).isSome = true →
      ∀ p ∈ db, p.sku = s → candHas candidates s = true) :
    ∀ l ∈ basketAfterReplace q candidates db cm parsed, ∀ v,
      mapGet cm l.sku = some v → l.qty = some v := by
  have hba : ∀ l ∈ basketAfterAdd q candidates db cm parsed, ∀ v,
      mapGet cm l.sku = some v → l.qty = some v := by
    unfold basketAfterAdd
    split
    · exact addPath_cartOK hk (validatedBasket_cartOK hpos) hdb
    · exact validatedBasket_cartOK hpos
  unfold basketAfterReplace
  split
  · exact reassertCartQty_cartOK hpos
  · exact hba

theorem finalBasket_cartOK {q : String} {candidates db : List Product}
    {cm : List (String × Int)} {parsed : RawProposal}
    (hk : (cm.map (fun p => p.1)).Nodup)
    (hpos : ∀ s v, mapGet cm s = some v → 1 ≤ v)
    (hdb : ∀ s, (mapGet cm s).isSome = true →
      ∀ p ∈ db, p.sku = s → candHas candidates s = true) :
    ∀ l ∈ finalBasket q candidates db cm parsed, ∀ v,
      mapGet cm l.sku = some v → l.qty = some v := by
  unfold finalBasket
  apply normalReadd_cartOK hk
  unfold recoveryOf
  rcases emptyBasketRecovery_fst q (normalizeQuery q) candidates cm
    (replaceIntent q) (addIntent q) (removeIntent q)
    (basketAfterReplace q candidates db cm parsed) (confirmAfterAdd q parsed) with
    h1 | ⟨hempty, hrep, hadd, h2⟩ | ⟨_, h3⟩
  · rw [h1]
    exact basketAfterReplace_cartOK hk hpos hdb
  · rw [h2]
    -- the replace branch re-runs the picker, but it already came back empty:
    -- with Replace classified and no Add, the force-replace merge ran, and an
    -- empty result there means the picker returned nothing.
    have hsfr : shouldForceReplace q cm (basketAfterAdd q candidates db cm parsed)
        (addIntent q) (replaceIntent q) = true := by
      unfold shouldForceReplace
      rw [hadd, hrep]
      rfl
    have hcore : forceReplaceCore q (normalizeQuery q) candidates cm
        (basketAfterAdd q candidates db cm parsed) = [] := by
      apply reassertCartQty_nil
      have : basketAfterReplace q candidates db cm parsed =
          reassertCartQty cm (forceReplaceCore q (normalizeQuery q) candidates cm
            (basketAfterAdd q candidates db cm parsed)) := by
        unfold basketAfterReplace
        rw [hsfr]
        rfl
      rw [← this]
      exact hempty
    rw [forceReplaceCore_nil hcore]
    intro l hl
    simp at hl
  · rw [h3]
    exact restoreFold_cartOK hk

/-! ### Concrete sample data for witnesses and counterexamples -/

def prodGlue : Product :=
  { sku := "GLU-1", name := "Pegamento PVC", brand := "", category := "plomeria",
    subcategory := "adhesivos", description := "cemento para pvc", price := 30,
    currency := "MXN", stock := 2, image_url := "" }

def prodTape : Product :=
  { sku := "PTF-12", name := "Cinta Teflón 1/2", brand := "", category := "plomeria",
    subcategory := "sellado", description := "cinta ptfe para roscas", price := 20,
    currency := "MXN", stock := 5, image_url := "" }

def prodUnionCex : Product :=
  { sku := "UNI-1", name := "union roscada", brand := "", category := "",
    subcategory := "", description := "", price := 15, currency := "MXN",
    stock := 5, image_url := "" }

def prodTapeCex : Product :=
  { sku := "TZ-9", name := "cinta teflón", brand := "", category := "",
    subcategory := "", description := "", price := 20, currency := "MXN",
    stock := 2, image_url := "" }

def prodCorta : Product :=
  { sku := "CORTA-COBRE-001", name := "Cortatubo para cobre", brand := "",
    category := "herramientas", subcategory := "corte",
    description := "cortatubo manual", price := 120, currency := "MXN",
    stock := 3, image_url := "" }

def prodRep : Product :=
  { sku := "REP-CORTA-001", name := "Repuesto disco cortatubo", brand := "",
    category := "herramientas", subcategory := "refacciones",
    description := "disco de repuesto para cortatubo", price := 35,
    currency := "MXN", stock := 6, image_url := "" }

def lineGlue2 : Line :=
  { sku := "GLU-1", name := "Pegamento PVC", qty := some 2, price := 30,
    currency := "MXN", stock := 2, image_url := "", why := "" }

def lineGlue1 : Line :=
  { sku := "GLU-1", name := "Pegamento PVC", qty := some 1, price := 30,
    currency := "MXN", stock := 2, image_url := "", why := "" }

def lineGlue7 : Line :=
  { sku := "GLU-1", name := "Pegamento PVC", qty := some 7, price := 30,
    currency := "MXN", stock := 2, image_url := "", why := "" }

def lineGlueNoQty : Line :=
  { sku := "GLU-1", name := "Pegamento PVC", qty := none, price := 30,
    currency := "MXN", stock := 2, image_url := "", why := "" }

def lineAAA : Line :=
  { sku := "AAA", name := "algo", qty := some 2, price := 1,
    currency := "MXN", stock := 1, image_url := "", why := "" }

def emptyRawPlan : Plan :=
  { title := "", steps := [], basket := [], upsell := [], confirm := "" }

def propEmpty : RawProposal := { plan := emptyRawPlan, reply := "" }

def propGlue : RawProposal :=
  { plan := { emptyRawPlan with basket := [lineGlue2] }, reply := "" }

def propGlueNoQty : RawProposal :=
  { plan := { emptyRawPlan with basket := [lineGlueNoQty] }, reply := "" }

def propDup : RawProposal :=
  { plan := { emptyRawPlan with basket := [lineGlue2, lineGlue2] }, reply := "" }

/-! ### Small bridge for the post-parse branch -/

theorem reconcile_some_eq (q : String) (cart : List CartItem)
    (search db : List Product) (parsed : RawProposal)
    (hend : endIntent q = false) :
    reconcile q cart search db (some parsed) =
      reconcileParsed q cart search db parsed := by
  unfold reconcile
  rw [if_neg (by simp [hend])]

/-! ### Claim theorems -/

/-- C9: the business nudge pass (the PVC-leak out-of-stock pass) never adds,
removes, or modifies basket or upsell lines — for every input state the
basket, upsell, title and steps after the pass are identical to those before
it; only the reply text and the confirm prompt may change. -/
theorem c9_nudge_frame (q : String) (db : List Product) (plan : Plan)
    (reply : String) :
    (nudgePass q db plan reply).1.basket = plan.basket ∧
    (nudgePass q db plan reply).1.upsell = plan.upsell ∧
    (nudgePass q db plan reply).1.title = plan.title ∧
    (nudgePass q db plan reply).1.steps = plan.steps := by
  unfold nudgePass
  split
  · cases db.find? (fun p => p.sku = "PVC-CPL-050") with
    | none => exact ⟨rfl, rfl, rfl, rfl⟩
    | some cople =>
      dsimp only
      split
      · split
        · exact ⟨rfl, rfl, rfl, rfl⟩
        · exact ⟨rfl, rfl, rfl, rfl⟩
      · exact ⟨rfl, rfl, rfl, rfl⟩
  · exact ⟨rfl, rfl, rfl, rfl⟩

/-- C4: on an End-classified utterance (for example the exact utterance
"no gracias"), the returned plan's basket and upsell are both empty whatever
the prior cart, the candidate search results, the catalog and the generative
proposal are — the generative step's output is never consulted. -/
theorem c4_end_intent_empty_plan (q : String) (cart : List CartItem)
    (search db : List Product) (proposal : Option RawProposal)
    (h : endIntent q = true) :
    (reconcile q cart search db proposal).plan.basket = [] ∧
    (reconcile q cart search db proposal).plan.upsell = [] := by
  unfold reconcile
  rw [if_pos h]
  exact ⟨rfl, rfl⟩

theorem c4_end_intent_empty_plan_witness :
    (reconcile "no gracias" [⟨"GLU-1", some 2⟩] [prodGlue] [prodGlue]
      (some propDup)).plan.basket = [] ∧
    (reconcile "no gracias" [⟨"GLU-1", some 2⟩] [prodGlue] [prodGlue]
      (some propDup)).plan.upsell = [] :=
  c4_end_intent_empty_plan "no gracias" [⟨"GLU-1", some 2⟩] [prodGlue] [prodGlue]
    (some propDup) (by decide)

/-- C3: when the generative proposal fails to parse (modelled as the proposal
being none) on a non-End turn, reconcile returns the fixed fallback plan —
empty basket, empty upsell, generic ready-to-confirm reply and confirm — and
the turn succeeds with this plan instead of surfacing an error. -/
theorem c3_malformed_proposal_fallback (q : String) (cart : List CartItem)
    (search db : List Product) (h : endIntent q = false) :
    reconcile q cart search db none = fallbackOut ∧
    (reconcile q cart search db none).plan.basket = [] ∧
    (reconcile q cart search db none).plan.upsell = [] ∧
    (reconcile q cart search db none).reply =
      "Tengo una sugerencia lista. ¿Deseas confirmar ahora?" ∧
    (reconcile q cart search db none).plan.confirm = "¿Deseas confirmar ahora?" := by
  unfold reconcile
  rw [if_neg (by simp [h])]
  exact ⟨rfl, rfl, rfl, rfl, rfl⟩

theorem c3_malformed_proposal_fallback_witness :
    reconcile "necesito cinta" [⟨"GLU-1", some 2⟩] [prodGlue] [prodGlue] none =
      fallbackOut ∧
    (reconcile "necesito cinta" [⟨"GLU-1", some 2⟩] [prodGlue] [prodGlue]
      none).plan.basket = [] ∧
    (reconcile "necesito cinta" [⟨"GLU-1", some 2⟩] [prodGlue] [prodGlue]
      none).plan.upsell = [] ∧
    (reconcile "necesito cinta" [⟨"GLU-1", some 2⟩] [prodGlue] [prodGlue]
      none).reply = "Tengo una sugerencia lista. ¿Deseas confirmar ahora?" ∧
    (reconcile "necesito cinta" [⟨"GLU-1", some 2⟩] [prodGlue] [prodGlue]
      none).plan.confirm = "¿Deseas confirmar ahora?" :=
  c3_malformed_proposal_fallback "necesito cinta" [⟨"GLU-1", some 2⟩] [prodGlue]
    [prodGlue] (by decide)

/-- C5 counterexample: with the empty proposal basket, alternate vocabulary in
the utterance and neither Add nor Replace classified, the claim's trigger
condition (basket entirely a subset of the previous cart's SKUs — vacuously
true for the empty basket) holds, but the code does not trigger force-replace
(it additionally requires a non-empty basket). -/
theorem c5_counterexample :
    shouldForceReplace "roscada" (buildCartMap []) []
      (addIntent "roscada") (replaceIntent "roscada") = false ∧
    addIntent "roscada" = false ∧
    replaceIntent "roscada" = false ∧
    mentionsAlternates "roscada" = true ∧
    (∀ l ∈ ([] : List Line), (mapGet (buildCartMap []) l.sku).isSome = true) := by
  refine ⟨by decide, by decide, by decide, by decide, ?_⟩
  intro l hl
  simp at hl

/-- C5 (amended): force-replace triggers exactly when the turn is not an Add
turn and either Replace was classified or the utterance mentions alternate
vocabulary while the proposal's basket is non-empty and entirely a subset of
the previous cart's SKUs; the merge first drops every basket line whose SKU
was in the previous cart, and if the basket is then empty it is rebuilt
entirely by the Keyword Fallback Picker with cap 3. -/
theorem c5_force_replace_trigger (q qNorm : String) (cart : List CartItem)
    (candidates : List Product) (basket : List Line) :
    (shouldForceReplace q (buildCartMap cart) basket (addIntent q)
        (replaceIntent q) = true ↔
      (addIntent q = false ∧ (replaceIntent q = true ∨
        (mentionsAlternates q = true ∧ basket ≠ [] ∧
          ∀ l ∈ basket, (mapGet (buildCartMap cart) l.sku).isSome = true))))
    ∧ (forceReplaceCore q qNorm candidates (buildCartMap cart) basket =
        forceReplaceRebuild q qNorm candidates
          (basket.filter (fun x => (mapGet (buildCartMap cart) x.sku).isNone)))
    ∧ (basket.filter (fun x => (mapGet (buildCartMap cart) x.sku).isNone) = [] →
        forceReplaceCore q qNorm candidates (buildCartMap cart) basket =
          (pickByKeywords q qNorm candidates 3).map
            (fun src => mkLine src 1 "Seleccionado según tu preferencia.")) := by
  refine ⟨?_, rfl, ?_⟩
  · simp only [shouldForceReplace, Bool.and_eq_true, Bool.or_eq_true,
      Bool.not_eq_true', decide_eq_true_eq, List.all_eq_true, List.length_pos,
      ne_eq]
    tauto
  · intro h
    unfold forceReplaceCore
    rw [h]
    unfold forceReplaceRebuild
    simp

theorem c5_force_replace_trigger_witness :
    forceReplaceCore "mejor otra" "" [] (buildCartMap [⟨"AAA", some 2⟩]) [lineAAA] =
      (pickByKeywords "mejor otra" "" [] 3).map
        (fun src => mkLine src 1 "Seleccionado según tu preferencia.") :=
  (c5_force_replace_trigger "mejor otra" "" [⟨"AAA", some 2⟩] [] [lineAAA]).2.2
    (by decide)

theorem head?_take {α : Type} (n : Nat) (l : List α) (h : 1 ≤ n) :
    (l.take n).head? = l.head? := by
  cases n with
  | zero => omega
  | succ m => cases l <;> rfl

/-- C6 counterexample: an utterance mentioning teflón may also mention a
member of another keyword group; a competing candidate then ties on score and,
being earlier in insertion order, is returned first — so the unique teflon
match with stock is not first. -/
theorem c6_counterexample :
    groupInText teflonGroup (lowerStr ("teflón o roscada" ++ " " ++ "")) = true ∧
    prodTapeCex.stock > 0 ∧
    groupInHay teflonGroup prodTapeCex = true ∧
    (∀ c ∈ [prodUnionCex, prodTapeCex],
      groupInHay teflonGroup c = true → c = prodTapeCex) ∧
    (pickByKeywords "teflón o roscada" "" [prodUnionCex, prodTapeCex] 3).head? ≠
      some prodTapeCex := by
  refine ⟨by decide, by decide, by decide, by decide, by decide⟩

/-- C6 (amended): the Keyword Fallback Picker returns exactly the candidates
with positive score (2 per keyword group with a member in both the utterance
text and the candidate's concatenated name/description/category/subcategory,
plus 1 if stock is positive), sorted descending by score with ties in original
candidate order, truncated to max; and when the utterance mentions a member of
the teflon group and of no other keyword group, and exactly one candidate
matches the teflon group and has positive stock, that candidate is returned
first regardless of insertion order. -/
theorem c6_keyword_picker (q qNorm : String) (candidates : List Product)
    (max : Nat) :
    pickByKeywords q qNorm candidates max = pickByKeywordsSpec q qNorm candidates max
    ∧ ∀ c ∈ candidates,
        groupInText teflonGroup (lowerStr (q ++ " " ++ qNorm)) = true →
        (∀ g ∈ keywordGroups, g ≠ teflonGroup →
          groupInText g (lowerStr (q ++ " " ++ qNorm)) = false) →
        groupInHay teflonGroup c = true →
        (∀ c' ∈ candidates, groupInHay teflonGroup c' = true → c' = c) →
        c.stock > 0 → 1 ≤ max →
        (pickByKeywords q qNorm candidates max).head? = some c := by
  refine ⟨pickByKeywords_eq_spec q qNorm candidates max, ?_⟩
  intro c hc hq hother hhay huniq hstock hmax
  set T := lowerStr (q ++ " " ++ qNorm) with hT
  have h1 : groupInText unionGroup T = false :=
    hother unionGroup (by decide) (by decide)
  have h3 : groupInText ["cople", "acople", "empalme"] T = false :=
    hother _ (by decide) (by decide)
  have h4 : groupInText ["cortatubo", "corta tubo"] T = false :=
    hother _ (by decide) (by decide)
  have h5 : groupInText ["repuesto", "disco", "cuchilla"] T = false :=
    hother _ (by decide) (by decide)
  have h6 : groupInText ["pegamento", "cemento", "adhesivo", "pvc"] T = false :=
    hother _ (by decide) (by decide)
  have h7 : groupInText ["primer", "limpiador"] T = false :=
    hother _ (by decide) (by decide)
  have hsc : keywordScore T c = 3 := by
    unfold keywordScore keywordGroups
    simp [List.foldl, h1, h3, h4, h5, h6, h7, hq, hhay, hstock]
  have hbound : ∀ y ∈ candidates.filter (fun x => decide (keywordScore T x > 0)),
      y = c ∨ keywordScore T y < keywordScore T c := by
    intro y hy
    have hy' := (List.mem_filter.mp hy).1
    by_cases hyc : y = c
    · exact Or.inl hyc
    · right
      have hyhay : groupInHay teflonGroup y = false := by
        cases hh : groupInHay teflonGroup y
        · rfl
        · exact absurd (huniq y hy' hh) hyc
      have hyscore : keywordScore T y = if y.stock > 0 then (1 : Int) else 0 := by
        unfold keywordScore keywordGroups
        simp [List.foldl, h1, h3, h4, h5, h6, h7, hyhay]
      rw [hsc, hyscore]
      by_cases hys : y.stock > 0
      · simp [hys]
      · simp [hys]
  have hcf : c ∈ candidates.filter (fun x => decide (keywordScore T x > 0)) :=
    List.mem_filter.mpr ⟨hc, by rw [hsc]; decide⟩
  rw [pickByKeywords_eq_spec]
  show ((sortDescBy (keywordScore T)
    (candidates.filter (fun x => decide (keywordScore T x > 0)))).take max).head? =
    some c
  rw [head?_take _ _ hmax]
  exact sortDescBy_head_max hcf hbound

theorem c6_keyword_picker_witness :
    (pickByKeywords "teflón" "teflón" [prodGlue, prodTapeCex] 3).head? =
      some prodTapeCex :=
  (c6_keyword_picker "teflón" "teflón" [prodGlue, prodTapeCex] 3).2 prodTapeCex
    (by decide) (by decide) (by decide) (by decide) (by decide) (by decide)
    (by decide)

/-- C1 counterexample: on an Add turn asking for teflon with an empty
candidate set, the pinned teflon backfill fetches PTF-12 from the catalog and
the returned basket contains a SKU outside the candidate set. -/
theorem c1_counterexample :
    ∃ l ∈ (reconcile "dame teflón" [] [] [prodTape] (some propEmpty)).plan.basket,
      candHas (buildCandidates [] [prodTape] []) l.sku = false := by
  decide

/-- C1 (amended): every line of the returned basket carries a SKU of the
candidate set, except that on Add turns the pinned-SKU backfills may add lines
with the pinned SKUs PTF-12 and REP-CORTA-001 fetched straight from the
catalog even when they are outside the candidate set; every upsell line's SKU
is always in the candidate set. -/
theorem c1_candidate_set_guard (q : String) (cart : List CartItem)
    (search db : List Product) (proposal : Option RawProposal) :
    (∀ l ∈ (reconcile q cart search db proposal).plan.basket,
        candHas (buildCandidates search db cart) l.sku = true ∨
        (addIntent q = true ∧ (l.sku = "PTF-12" ∨ l.sku = "REP-CORTA-001")))
    ∧ ∀ l ∈ (reconcile q cart search db proposal).plan.upsell,
        candHas (buildCandidates search db cart) l.sku = true := by
  unfold reconcile
  by_cases hend : endIntent q = true
  · rw [if_pos hend]
    constructor <;> (intro l hl; simp [endPlanOut] at hl)
  · rw [if_neg hend]
    cases proposal with
    | none =>
      constructor <;> (intro l hl; simp [fallbackOut] at hl)
    | some parsed =>
      constructor
      · intro l hl
        rw [show (match some parsed with
            | none => fallbackOut
            | some parsed => reconcileParsed q cart search db parsed) =
            reconcileParsed q cart search db parsed from rfl,
          reconcileParsed_basket] at hl
        exact finalBasket_candOrPinned l hl
      · intro l hl
        rw [show (match some parsed with
            | none => fallbackOut
            | some parsed => reconcileParsed q cart search db parsed) =
            reconcileParsed q cart search db parsed from rfl,
          reconcileParsed_upsell] at hl
        unfold filterToCandidates at hl
        exact (List.mem_filter.mp hl).2

theorem c1_candidate_set_guard_witness :
    candHas (buildCandidates [prodGlue] [] []) lineGlue2.sku = true ∨
    (addIntent "hola" = true ∧
      (lineGlue2.sku = "PTF-12" ∨ lineGlue2.sku = "REP-CORTA-001")) :=
  (c1_candidate_set_guard "hola" [] [prodGlue] [] (some propGlue)).1 lineGlue2
    (by decide)

/-- C10: every line in the final basket has quantity at least 1, whatever the
client cart (including missing, zero or negative quantities) and the proposal
(including missing or non-positive line quantities) supply. -/
theorem c10_qty_at_least_one (q : String) (cart : List CartItem)
    (search db : List Product) (proposal : Option RawProposal) :
    ∀ l ∈ (reconcile q cart search db proposal).plan.basket, 1 ≤ l.qty.getD 0 := by
  unfold reconcile
  by_cases hend : endIntent q = true
  · rw [if_pos hend]
    intro l hl
    simp [endPlanOut] at hl
  · rw [if_neg hend]
    cases proposal with
    | none =>
      intro l hl
      simp [fallbackOut] at hl
    | some parsed =>
      intro l hl
      rw [show (match some parsed with
          | none => fallbackOut
          | some parsed => reconcileParsed q cart search db parsed) =
          reconcileParsed q cart search db parsed from rfl,
        reconcileParsed_basket] at hl
      exact finalBasket_qty_pos buildCartMap_mem_pos l hl

theorem c10_qty_at_least_one_witness :
    1 ≤ lineGlue1.qty.getD 0 :=
  c10_qty_at_least_one "hola" [⟨"GLU-1", some 0⟩] [prodGlue] [prodGlue]
    (some propGlueNoQty) lineGlue1 (by decide)

/-- C8 counterexample: when the validated proposal itself contains two lines
with the same SKU, the returned basket keeps both — no deduplication happens
on a plain turn. -/
theorem c8_counterexample :
    ¬ (((reconcile "hola" [] [prodGlue] [prodGlue]
        (some propDup)).plan.basket).map (fun l => l.sku)).Nodup := by
  decide

/-- C8 (amended): the returned basket contains at most one line per SKU,
provided the generative proposal's basket itself has at most one line per SKU
(the engine never deduplicates proposal lines, but every line it adds itself
is guarded by a SKU-membership check). -/
theorem c8_basket_sku_unique (q : String) (cart : List CartItem)
    (search db : List Product) (parsed : RawProposal)
    (hnd : (parsed.plan.basket.map (fun l => l.sku)).Nodup) :
    (((reconcile q cart search db (some parsed)).plan.basket).map
      (fun l => l.sku)).Nodup := by
  unfold reconcile
  by_cases hend : endIntent q = true
  · rw [if_pos hend]
    simp [endPlanOut]
  · rw [if_neg hend]
    rw [show (match some parsed with
        | none => fallbackOut
        | some parsed => reconcileParsed q cart search db parsed) =
        reconcileParsed q cart search db parsed from rfl,
      reconcileParsed_basket]
    exact finalBasket_nodup hnd (buildCandidates_nodup_skus search db cart)
      (buildCartMap_keys_nodup cart)

theorem c8_basket_sku_unique_witness :
    (((reconcile "hola" [⟨"GLU-1", some 7⟩] [prodGlue] [prodGlue]
      (some propGlue)).plan.basket).map (fun l => l.sku)).Nodup :=
  c8_basket_sku_unique "hola" [⟨"GLU-1", some 7⟩] [prodGlue] [prodGlue] propGlue
    (by decide)

/-- C2: the client cart is the authoritative quantity source — any basket line
whose SKU carries quantity v ≥ 1 in the (duplicate-free) client cart is
returned with exactly that quantity; and for a line whose SKU the client cart
does not know, the quantity-reassertion step keeps the proposal's quantity,
floored at 1 (a missing quantity counts as 1). -/
theorem c2_client_cart_authoritative (q s : String) (v : Int)
    (cart : List CartItem) (search db : List Product) (parsed : RawProposal)
    (hnd : (cart.map (fun ci => ci.sku)).Nodup)
    (hin : (⟨s, some v⟩ : CartItem) ∈ cart) (hv : 1 ≤ v) :
    (∀ l ∈ (reconcile q cart search db (some parsed)).plan.basket,
        l.sku = s → l.qty = some v)
    ∧ ∀ l : Line, mapGet (buildCartMap cart) l.sku = none →
        (reassertLine (buildCartMap cart) l).qty =
          some (max 1 (l.qty.getD 1)) := by
  constructor
  · intro l hl hsku
    unfold reconcile at hl
    by_cases hend : endIntent q = true
    · rw [if_pos hend] at hl
      simp [endPlanOut] at hl
    · rw [if_neg hend] at hl
      rw [show (match some parsed with
          | none => fallbackOut
          | some parsed => reconcileParsed q cart search db parsed) =
          reconcileParsed q cart search db parsed from rfl,
        reconcileParsed_basket] at hl
      have hget : mapGet (buildCartMap cart) s = some v := by
        rw [buildCartMap_get_of_nodup hnd hin]
        have hv0 : ¬ v = 0 := by omega
        unfold cartQtyVal
        simp [hv0, max_eq_right hv]
      have hdb : ∀ s', (mapGet (buildCartMap cart) s').isSome = true →
          ∀ p ∈ db, p.sku = s' →
          candHas (buildCandidates search db cart) s' = true := by
        intro s' hs' p hp hpU
        rcases List.mem_map.mp (buildCartMap_keys_sub hs') with ⟨ci, hci, he⟩
        rw [← he]
        exact candHas_of_cart_db hci hp (by rw [hpU, ← he])
      have := finalBasket_cartOK (buildCartMap_keys_nodup cart)
        (fun s' v' h => buildCartMap_val_pos h) hdb l hl v
      apply this
      rw [hsku]
      exact hget
  · intro l h
    unfold reassertLine
    rw [h]
    cases hq : l.qty <;> simp [hq]

theorem c2_client_cart_authoritative_witness :
    lineGlue7.qty = some 7 :=
  (c2_client_cart_authoritative "hola" "GLU-1" 7 [⟨"GLU-1", some 7⟩] [prodGlue]
    [prodGlue] propGlue (by decide) (by decide) (by decide)).1 lineGlue7
    (by decide) (by decide)

/-- The case-1 assist scenario, proved for any utterance with the relevant
intent profile and any cart whose entries are all the pinned cutter SKU. -/
theorem c7_aux (q : String) (cart : List CartItem) (search db : List Product)
    (parsed : RawProposal)
    (hend : endIntent q = false) (hadd : addIntent q = true)
    (hspare : ciAny spareNeedles q = true)
    (hteflon : ciAny teflonNeedles q = false)
    (hsome : (mapGet (buildCartMap cart) "CORTA-COBRE-001").isSome = true)
    (hkeys : ∀ p ∈ buildCartMap cart, p.1 = "CORTA-COBRE-001")
    (h1 : candHas (buildCandidates search db cart) "CORTA-COBRE-001" = true)
    (h2 : candHas (buildCandidates search db cart) "REP-CORTA-001" = true)
    (h3 : ∀ l ∈ parsed.plan.basket, l.sku ≠ "REP-CORTA-001") :
    (∃ l ∈ (reconcile q cart search db (some parsed)).plan.basket,
      l.sku = "CORTA-COBRE-001")
    ∧ ∃ l ∈ (reconcile q cart search db (some parsed)).plan.basket,
        l.sku = "REP-CORTA-001" ∧ l.qty = some 1 := by
  rw [reconcile_some_eq _ _ _ _ _ hend, reconcileParsed_basket]
  set C := buildCandidates search db cart with hC
  clear_value C
  set cm := buildCartMap cart with hcm
  clear_value cm
  set VB := validatedBasket C cm parsed with hVB
  clear_value VB
  have hVBnorep : ∀ l ∈ VB, l.sku ≠ "REP-CORTA-001" := by
    intro l hl
    rw [hVB] at hl
    rcases validatedBasket_mem hl with ⟨l0, hl0, _, he⟩
    rw [he, reassertLine_sku]
    exact h3 l0 hl0
  have hk1norep : ∀ l ∈ addReaddCart C cm (addKeep C VB),
      l.sku ≠ "REP-CORTA-001" := by
    intro l hl
    rcases addReaddCart_mem hl with hl' | ⟨p, hp, src, hsrc, he⟩
    · apply hVBnorep
      unfold addKeep at hl'
      exact (List.mem_filter.mp hl').1
    · rw [he, mkLine_sku, (bySkuGet_props hsrc).1, hkeys p hp]
      decide
  set K2 := addSpareRule q C (addReaddCart C cm (addKeep C VB)) with hK2
  clear_value K2
  have hk2qty : ∀ l ∈ K2, l.sku = "REP-CORTA-001" → l.qty = some 1 := by
    intro l hl hsk
    rw [hK2] at hl
    rcases addSpareRule_mem hl with hl' | ⟨pick, _, he⟩
    · exact absurd hsk (hk1norep l hl')
    · rw [he, mkLine_qty]
  have hteq1 : addTeflonRule q C (addSpareRule q C (addReaddCart C cm (addKeep C VB))) =
      K2 := by
    rw [hK2]
    unfold addTeflonRule
    rw [if_neg (by simp [hteflon])]
  have hteq2 : addTeflonFallback q db K2 = K2 := by
    unfold addTeflonFallback
    rw [if_neg (by simp [hteflon])]
  have hA : addPath q C db cm VB = addCase1 q C db cm K2 := by
    unfold addPath
    rw [hteq1, hteq2]
  have hBAA : basketAfterAdd q C db cm parsed = addPath q C db cm VB := by
    unfold basketAfterAdd
    rw [if_pos hadd, hVB]
  have hcorta : ∃ l ∈ addPath q C db cm VB, l.sku = "CORTA-COBRE-001" := by
    rcases addReaddCart_cover (b := addKeep C VB) hsome h1 with ⟨l, hl, hsk⟩
    refine ⟨l, ?_, hsk⟩
    unfold addPath
    exact addCase1_mono (addTeflonFallback_mono (addTeflonRule_mono
      (addSpareRule_mono hl)))
  have hrepline : ∃ l ∈ addPath q C db cm VB,
      l.sku = "REP-CORTA-001" ∧ l.qty = some 1 := by
    rw [hA]
    by_cases hany : K2.any (fun x => x.sku = "REP-CORTA-001") = true
    · rcases List.any_eq_true.mp hany with ⟨l, hl, hsk⟩
      simp only [decide_eq_true_eq] at hsk
      exact ⟨l, addCase1_mono hl, hsk, hk2qty l hl hsk⟩
    · rcases bySkuGet_of_candHas h2 with ⟨rep, hrep2, hrsku, _⟩
      rw [Bool.not_eq_true] at hany
      have hcond : (ciAny spareNeedles q && (mapGet cm "CORTA-COBRE-001").isSome &&
          !(K2.any (fun x => x.sku = "REP-CORTA-001"))) = true := by
        rw [hspare, hsome, hany]
        rfl
      have heq : addCase1 q C db cm K2 =
          K2 ++ [mkLine rep 1 "Agregado a tu pedido como repuesto del cortatubo."] := by
        unfold addCase1
        rw [if_pos hcond, hrep2]
      rw [heq]
      refine ⟨mkLine rep 1 _, List.mem_append_right _ (List.mem_singleton.mpr rfl),
        ?_, mkLine_qty _ _ _⟩
      rw [mkLine_sku, hrsku]
  have hAne : addPath q C db cm VB ≠ [] := by
    rcases hcorta with ⟨l, hl, _⟩
    intro h0
    rw [h0] at hl
    simp at hl
  have hsfr : shouldForceReplace q cm (basketAfterAdd q C db cm parsed)
      (addIntent q) (replaceIntent q) = false := by
    unfold shouldForceReplace
    rw [hadd]
    rfl
  have hBAR : basketAfterReplace q C db cm parsed =
      basketAfterAdd q C db cm parsed := by
    unfold basketAfterReplace
    rw [if_neg (by rw [hsfr]; simp)]
  have hrecfst : (recoveryOf q C db cm parsed).1 =
      basketAfterReplace q C db cm parsed := by
    unfold recoveryOf
    rcases emptyBasketRecovery_fst q (normalizeQuery q) C cm (replaceIntent q)
      (addIntent q) (removeIntent q) (basketAfterReplace q C db cm parsed)
      (confirmAfterAdd q parsed) with hr1 | ⟨he, _, _, _⟩ | ⟨he, _⟩
    · exact hr1
    · exfalso
      rw [hBAR, hBAA] at he
      exact hAne he
    · exfalso
      rw [hBAR, hBAA] at he
      exact hAne he
  constructor
  · rcases hcorta with ⟨l, hl, hsk⟩
    refine ⟨l, ?_, hsk⟩
    unfold finalBasket
    apply normalReadd_mono
    rw [hrecfst, hBAR, hBAA]
    exact hl
  · rcases hrepline with ⟨l, hl, hsk, hqty⟩
    refine ⟨l, ?_, hsk, hqty⟩
    unfold finalBasket
    apply normalReadd_mono
    rw [hrecfst, hBAR, hBAA]
    exact hl

/-- C7: on the Add turn "sí, dame el repuesto" with prior cart
CORTA-COBRE-001 (qty 1) and a candidate set containing both CORTA-COBRE-001
(the handler force-includes cart SKUs into the candidate set) and
REP-CORTA-001, provided the generative proposal did not itself propose
REP-CORTA-001 (the scenario the assist exists for), the final basket contains
both SKUs, with REP-CORTA-001 at quantity 1. -/
theorem c7_add_spare_scenario (search db : List Product) (parsed : RawProposal)
    (h1 : candHas (buildCandidates search db [⟨"CORTA-COBRE-001", some 1⟩])
      "CORTA-COBRE-001" = true)
    (h2 : candHas (buildCandidates search db [⟨"CORTA-COBRE-001", some 1⟩])
      "REP-CORTA-001" = true)
    (h3 : ∀ l ∈ parsed.plan.basket, l.sku ≠ "REP-CORTA-001") :
    (∃ l ∈ (reconcile "sí, dame el repuesto" [⟨"CORTA-COBRE-001", some 1⟩]
        search db (some parsed)).plan.basket, l.sku = "CORTA-COBRE-001")
    ∧ ∃ l ∈ (reconcile "sí, dame el repuesto" [⟨"CORTA-COBRE-001", some 1⟩]
        search db (some parsed)).plan.basket,
        l.sku = "REP-CORTA-001" ∧ l.qty = some 1 :=
  c7_aux "sí, dame el repuesto" [⟨"CORTA-COBRE-001", some 1⟩] search db parsed
    (by decide) (by decide) (by decide) (by decide) (by decide) (by decide)
    h1 h2 h3

theorem c7_add_spare_scenario_witness :
    (∃ l ∈ (reconcile "sí, dame el repuesto" [⟨"CORTA-COBRE-001", some 1⟩]
        [prodCorta, prodRep] [] (some propEmpty)).plan.basket,
      l.sku = "CORTA-COBRE-001")
    ∧ ∃ l ∈ (reconcile "sí, dame el repuesto" [⟨"CORTA-COBRE-001", some 1⟩]
        [prodCorta, prodRep] [] (some propEmpty)).plan.basket,
        l.sku = "REP-CORTA-001" ∧ l.qty = some 1 :=
  c7_add_spare_scenario [prodCorta, prodRep] [] propEmpty (by decide) (by decide)
    (by decide)

end Kiosk
